import Mathlib

/-!
Verification development for the review-annotation synchronization engine of
the kubelingoassist extension.  The four components under study are
`CommentStorageManager` (src/features/review/CommentStorageManager.ts),
`TranslationCommentController` (the comment lifecycle controller),
`GitHubReviewSync` (src/features/review/GitHubReviewSync.ts) and
`PRInfoService` (src/features/review/PRInfoService.ts).  The TypeScript code
is shallowly embedded: promises become explicit state passing plus oracle
parameters for the outcome of each external effect (filesystem write,
editor edit, remote call), JavaScript truthiness of optional numbers is
modelled explicitly, and the regular-expression matching used for fenced
suggestion blocks is implemented over character lists with the lazy
leftmost-shortest semantics of the source pattern.
-/

namespace KubeLingo

/-- Enum CommentType of src/core/types.ts. -/
inductive CommentType where
  | general
  | suggestion
  | question
  | terminology
  | grammar
  | style
deriving DecidableEq, Repr

/-- Interface ReviewCommentSuggestion of src/core/types.ts. -/
structure ReviewCommentSuggestion where
  original : String
  suggested : String
deriving DecidableEq, Repr

/-- Model of a JavaScript Date-or-string dynamic value.  In memory the code
holds `Date` objects; after JSON serialization and parsing the same field
holds the ISO-8601 text.  ISO-8601 at millisecond precision is a bijective
notation for the instant, so both forms carry the millisecond count; the
constructor records which representation is live. -/
inductive JsDate where
  | date (ms : Int)
  | isoString (ms : Int)
deriving DecidableEq, Repr

/-- JSON.stringify turns a Date into its ISO text (via toJSON) and leaves a
string unchanged. -/
def JsDate.toJsonVal : JsDate → JsDate
  | .date ms => .isoString ms
  | .isoString ms => .isoString ms

/-- Model of the expression new Date(v): parsing the ISO text recovers the
instant; a Date stays the same instant. -/
def JsDate.newDate : JsDate → JsDate
  | .date ms => .date ms
  | .isoString ms => .date ms

/-- True when the value is a live Date object. -/
def JsDate.isDateObj : JsDate → Bool
  | .date _ => true
  | .isoString _ => false

/-- Interface ReviewComment of src/core/types.ts (the review-feature variant:
id, filePath, author, body, type, lineNumber, createdAt, resolved,
suggestion?, replies, prCommentId?).  Replies are recursive, hence an
inductive type rather than a structure. -/
inductive ReviewComment where
  | mk (id : String) (filePath : String) (author : String) (body : String)
       (type : CommentType) (lineNumber : Int) (createdAt : JsDate)
       (resolved : Bool) (suggestion : Option ReviewCommentSuggestion)
       (replies : List ReviewComment) (prCommentId : Option Int)
deriving Repr

def ReviewComment.id : ReviewComment → String
  | .mk i _ _ _ _ _ _ _ _ _ _ => i

def ReviewComment.filePath : ReviewComment → String
  | .mk _ f _ _ _ _ _ _ _ _ _ => f

def ReviewComment.author : ReviewComment → String
  | .mk _ _ a _ _ _ _ _ _ _ _ => a

def ReviewComment.body : ReviewComment → String
  | .mk _ _ _ b _ _ _ _ _ _ _ => b

def ReviewComment.type : ReviewComment → CommentType
  | .mk _ _ _ _ t _ _ _ _ _ _ => t

def ReviewComment.lineNumber : ReviewComment → Int
  | .mk _ _ _ _ _ n _ _ _ _ _ => n

def ReviewComment.createdAt : ReviewComment → JsDate
  | .mk _ _ _ _ _ _ c _ _ _ _ => c

def ReviewComment.resolved : ReviewComment → Bool
  | .mk _ _ _ _ _ _ _ r _ _ _ => r

def ReviewComment.suggestion : ReviewComment → Option ReviewCommentSuggestion
  | .mk _ _ _ _ _ _ _ _ s _ _ => s

def ReviewComment.replies : ReviewComment → List ReviewComment
  | .mk _ _ _ _ _ _ _ _ _ rs _ => rs

def ReviewComment.prCommentId : ReviewComment → Option Int
  | .mk _ _ _ _ _ _ _ _ _ _ p => p

/-- The in-place mutation comment.resolved = true performed by
resolveComment. -/
def ReviewComment.setResolvedTrue : ReviewComment → ReviewComment
  | .mk i f a b t n c _ s rs p => .mk i f a b t n c true s rs p

/-- JavaScript truthiness of an optional numeric field: undefined and 0 are
falsy, every other number is truthy (NaN is not representable in the model;
it cannot result from JSON of a GitHub id). -/
def jsTruthyNum : Option Int → Bool
  | none => false
  | some n => n != 0

/-- The mapping held by the controller and the storage manager: file path to
ordered comment list (a JS Map, keys unique, insertion order kept). -/
abbrev CommentMap := List (String × List ReviewComment)

/-!
Substring search over character lists.  listFind returns the text before and
after the leftmost occurrence of the pattern, mirroring how a regular
expression engine scans match start positions left to right.
-/

/-- Leftmost occurrence of pat in s, as the surrounding pieces:
listFind pat s = some (b, a) means s = b ++ pat ++ a with b shortest. -/
def listFind (pat : List Char) : List Char → Option (List Char × List Char)
  | [] => if pat = [] then some ([], []) else none
  | c :: rest =>
    if pat.isPrefixOf (c :: rest) then some ([], (c :: rest).drop pat.length)
    else match listFind pat rest with
         | some (b, a) => some (c :: b, a)
         | none => none

/-- Lazy match of the pattern opn(.*?)cls with dot-matches-newline: leftmost
occurrence of opn, then the shortest middle ending at the first later
occurrence of cls.  Returns (before, middle, after). -/
def matchLazy (opn cls s : List Char) : Option (List Char × List Char × List Char) :=
  match listFind opn s with
  | none => none
  | some (b, rest) =>
    match listFind cls rest with
    | none => none
    | some (m, a) => some (b, m, a)

/-- String.prototype.replace with a lazy regex and empty replacement: drop
the first match, or return the string unchanged when there is none. -/
def replaceLazyOnce (opn cls s : List Char) : List Char :=
  match matchLazy opn cls s with
  | some (b, _, a) => b ++ a
  | none => s

/-- Opening literal of the fenced suggestion pattern in GitHubReviewSync. -/
def suggOpen : List Char := "```suggestion\n".toList

/-- Closing literal of the detection regex (with the s flag, lazy). -/
def suggClose : List Char := "\n```".toList

/-- Closing literal of the removal regex used for bodyWithoutSuggestion. -/
def suggCloseBlank : List Char := "\n```\n\n".toList

/-!
GitHubReviewSync (src/features/review/GitHubReviewSync.ts).
-/

/-- Interface GitHubPRComment of GitHubReviewSync.ts.  created_at is the
instant (milliseconds) named by the wire ISO timestamp. -/
structure GitHubPRComment where
  id : Int
  path : String
  line : Int
  body : String
  userLogin : String
  created_at : Int
deriving DecidableEq, Repr

/-- GitHubReviewSync.convertToReviewComment: detect a fenced suggestion block
with the lazy regex, synthesize the suggestion pair with an empty original
side, strip the block (followed by a blank line) from the body, and build the
local comment with id gh-id, resolved false and prCommentId set. -/
def convertToReviewComment (gh : GitHubPRComment) : ReviewComment :=
  let m := matchLazy suggOpen suggClose gh.body.toList
  let sug : Option ReviewCommentSuggestion :=
    match m with
    | some (_, mid, _) => some { original := "", suggested := mid.asString }
    | none => none
  let bodyOut : String :=
    match m with
    | some _ => (replaceLazyOnce suggOpen suggCloseBlank gh.body.toList).asString
    | none => gh.body
  .mk ("gh-" ++ toString gh.id) gh.path gh.userLogin bodyOut
    (match m with | some _ => CommentType.suggestion | none => CommentType.general)
    gh.line (.date gh.created_at) false sug [] (some gh.id)

/-- TranslationCommentController.getUnresolvedComments: flatten the per-file
lists in map order, keeping comments with resolved false. -/
def getUnresolvedComments (m : CommentMap) : List ReviewComment :=
  (m.map (fun pc => pc.2.filter (fun c => !c.resolved))).flatten

/-- The unsynced selection inside pushAllToGitHub: unresolved comments whose
prCommentId is JS-falsy (absent or zero). -/
def unsyncedComments (m : CommentMap) : List ReviewComment :=
  (getUnresolvedComments m).filter (fun c => !jsTruthyNum c.prCommentId)

/-- The sequential push loop of pushAllToGitHub: each comment is pushed via
syncToGitHub inside try/catch, so a failing push is logged and the loop
continues; the outcome of each remote push is the oracle pushOk.  Returns
the comments attempted in order and the success count. -/
def pushLoop (pushOk : ReviewComment → Bool) : List ReviewComment → List ReviewComment × Nat
  | [] => ([], 0)
  | c :: rest =>
    let r := pushLoop pushOk rest
    (c :: r.1, (if pushOk c then 1 else 0) + r.2)

/-- Review verdict values accepted by pushAllToGitHub. -/
inductive ReviewEvent where
  | approve
  | comment
  | requestChanges
deriving DecidableEq, Repr

/-- Result of pushAllToGitHub: the list of comments individually pushed (in
order) and the returned count or thrown error. -/
structure PushOutcome where
  attempted : List ReviewComment
  result : Except String Nat
deriving Repr

/-- GitHubReviewSync.pushAllToGitHub: select the unresolved comments with
falsy prCommentId; with a review event and a truthy PR number submit one
review (returning the candidate count, or the submit error); otherwise push
each candidate individually, counting successes. -/
def pushAllToGitHub (m : CommentMap) (prNumber : Option Int)
    (reviewEvent : Option ReviewEvent) (pushOk : ReviewComment → Bool)
    (submitErr : Option String) : PushOutcome :=
  let unsynced := unsyncedComments m
  if reviewEvent.isSome && jsTruthyNum prNumber then
    match submitErr with
    | none => { attempted := [], result := .ok unsynced.length }
    | some e => { attempted := [], result := .error e }
  else
    let r := pushLoop pushOk unsynced
    { attempted := r.1, result := .ok r.2 }

/-!
TranslationCommentController: the comment lifecycle operations.  The VS Code
pieces are made explicit: the active editor document is a list of line
texts (none when no editor is active), live comment-thread handles are the
ids in commentThreads, and user-visible notifications are returned as a
message list.  Persistence through CommentStorageManager is invoked after
each mutation with its errors swallowed, so it does not alter the outcome
of these operations; the store itself is modelled separately below.
-/

/-- A notification shown with showErrorMessage or showInformationMessage. -/
inductive UserMsg where
  | error (s : String)
  | info (s : String)
deriving DecidableEq, Repr

/-- Completion of an async controller operation: normal completion with the
messages shown, or a rejected promise carrying a host exception. -/
inductive OpResult where
  | completed (msgs : List UserMsg)
  | threw (e : String)
deriving DecidableEq, Repr

/-- In-memory state of TranslationCommentController plus the active editor. -/
structure CtrlState where
  comments : CommentMap
  commentThreads : List String
  activeDoc : Option (List String)

/-- TranslationCommentController.findComment: scan the map values in order
and return the first comment whose id matches. -/
def findComment : CommentMap → String → Option ReviewComment
  | [], _ => none
  | (_, cs) :: rest, commentId =>
    match cs.find? (fun c => c.id == commentId) with
    | some c => some c
    | none => findComment rest commentId

/-- Set resolved on the first comment of the list with the given id (the
in-place object mutation seen through the containing list). -/
def setResolvedFirst (commentId : String) : List ReviewComment → List ReviewComment
  | [] => []
  | c :: rest =>
    if c.id == commentId then c.setResolvedTrue :: rest
    else c :: setResolvedFirst commentId rest

/-- Apply the resolveComment mutation inside the map: only the first file
list containing the id is touched, matching the findComment scan order. -/
def resolveInMap : CommentMap → String → CommentMap
  | [], _ => []
  | (p, cs) :: rest, commentId =>
    if cs.any (fun c => c.id == commentId) then (p, setResolvedFirst commentId cs) :: rest
    else (p, cs) :: resolveInMap rest commentId

/-- TranslationCommentController.resolveComment: a missing id returns
silently; otherwise resolved is set, the live thread handle is disposed and
removed, and the store is saved.  No message is shown either way. -/
def resolveComment (st : CtrlState) (commentId : String) : CtrlState × OpResult :=
  match findComment st.comments commentId with
  | none => (st, .completed [])
  | some _ =>
    ({ st with comments := resolveInMap st.comments commentId,
               commentThreads := st.commentThreads.filter (fun i => i != commentId) },
     .completed [])

/-- TranslationCommentController.rejectSuggestion: resolve (silently a no-op
on an unknown id) and then always show the rejection notice. -/
def rejectSuggestion (st : CtrlState) (commentId : String) : CtrlState × OpResult :=
  let r := resolveComment st commentId
  match r.2 with
  | .completed msgs => (r.1, .completed (msgs ++ [.info "Suggestion rejected"]))
  | .threw e => (r.1, .threw e)

/-- TranslationCommentController.applySuggestion: look the comment up (an
unknown id or a comment without a suggestion payload reports Suggestion not
found); require an active editor; replace the full text of the anchor line
inside editor.edit, whose host-reported outcome is the oracle editSuccess;
on success resolve the comment and report success, on failure report
failure and leave the comment untouched.  document.lineAt throws on an
out-of-range line index, which surfaces as a rejected promise. -/
def applySuggestion (st : CtrlState) (commentId : String) (editSuccess : Bool) :
    CtrlState × OpResult :=
  match findComment st.comments commentId with
  | none => (st, .completed [.error "Suggestion not found"])
  | some c =>
    match c.suggestion with
    | none => (st, .completed [.error "Suggestion not found"])
    | some sug =>
      match st.activeDoc with
      | none => (st, .completed [.error "No active editor"])
      | some lines =>
        if 0 ≤ c.lineNumber - 1 ∧ c.lineNumber - 1 < lines.length then
          if editSuccess then
            let doc := lines.set (c.lineNumber - 1).toNat sug.suggested
            let r := resolveComment { st with activeDoc := some doc } commentId
            match r.2 with
            | .completed msgs =>
              (r.1, .completed (msgs ++ [.info "✅ Suggestion applied successfully!"]))
            | .threw e => (r.1, .threw e)
          else (st, .completed [.error "❌ Failed to apply suggestion"])
        else (st, .threw "Illegal value for line")

/-- TranslationCommentController.addCommentToStore: append to the file list,
creating the entry when absent (Map.get fallback plus Map.set). -/
def addCommentToStore : CommentMap → String → ReviewComment → CommentMap
  | [], p, c => [(p, [c])]
  | (q, cs) :: rest, p, c =>
    if q == p then (q, cs ++ [c]) :: rest
    else (q, cs) :: addCommentToStore rest p c

/-- TranslationCommentController.addComment: mint a comment with the given
fresh id (the UUID), resolved false, no suggestion, empty replies, append
and persist. -/
def addComment (st : CtrlState) (path freshId user bodyText : String)
    (t : CommentType) (line : Int) (now : Int) : CtrlState × ReviewComment :=
  let c : ReviewComment :=
    .mk freshId path user bodyText t line (.date now) false none [] none
  ({ st with comments := addCommentToStore st.comments path c,
             commentThreads := st.commentThreads ++ [freshId] }, c)

/-- TranslationCommentController.addSuggestion: same as addComment with type
suggestion and the suggestion pair attached; reason becomes the body. -/
def addSuggestion (st : CtrlState) (path freshId user reason : String)
    (line : Int) (now : Int) (originalText suggestedText : String) :
    CtrlState × ReviewComment :=
  let c : ReviewComment :=
    .mk freshId path user reason CommentType.suggestion line (.date now) false
      (some { original := originalText, suggested := suggestedText }) [] none
  ({ st with comments := addCommentToStore st.comments path c,
             commentThreads := st.commentThreads ++ [freshId] }, c)

/-- One engine operation on the controller state, as named by the spec:
resolution, suggestion application and rejection, comment and suggestion
creation, pushing (GitHubReviewSync.pushAllToGitHub, which reads the store
and never writes it back), and importing (GitHubReviewSync.syncFromGitHub,
which returns converted comments without touching the store). -/
inductive EngineOp where
  | resolve (commentId : String)
  | applySugg (commentId : String) (editSuccess : Bool)
  | rejectSugg (commentId : String)
  | add (path freshId user bodyText : String) (t : CommentType) (line : Int) (now : Int)
  | addSugg (path freshId user reason : String) (line : Int) (now : Int)
      (originalText suggestedText : String)
  | pushAll (prNumber : Option Int) (reviewEvent : Option ReviewEvent)
      (pushOk : ReviewComment → Bool) (submitErr : Option String)
  | importRemote (ghs : List GitHubPRComment)

/-- Effect of one engine operation on the controller state. -/
def stepOp (st : CtrlState) : EngineOp → CtrlState
  | .resolve commentId => (resolveComment st commentId).1
  | .applySugg commentId editSuccess => (applySuggestion st commentId editSuccess).1
  | .rejectSugg commentId => (rejectSuggestion st commentId).1
  | .add path freshId user bodyText t line now =>
    (addComment st path freshId user bodyText t line now).1
  | .addSugg path freshId user reason line now o s =>
    (addSuggestion st path freshId user reason line now o s).1
  | .pushAll _ _ _ _ => st
  | .importRemote _ => st

/-- All top-level comments of the store, in map order. -/
def allComments (m : CommentMap) : List ReviewComment :=
  (m.map (fun pc => pc.2)).flatten

/-!
CommentStorageManager (src/features/review/CommentStorageManager.ts).  The
persisted file is modelled at the JSON-document level: JSON.stringify and
JSON.parse are mutually inverse on the document tree, so the file content is
kept as the parsed shape.  What stringify does change is recorded: every
Date in the tree becomes its ISO text (JsDate.toJsonVal), recursively
through replies, and optional fields absent in memory stay absent.
-/

/-- JSON.stringify applied to one comment: dates become ISO strings at every
nesting depth. -/
def serializeComment : ReviewComment → ReviewComment
  | .mk i f a b t n ca r s replies p =>
    .mk i f a b t n ca.toJsonVal r s (replies.attach.map (fun x => serializeComment x.1)) p
decreasing_by
  have h := List.sizeOf_lt_of_mem x.2
  simp
  omega

/-- JSON.stringify applied to the whole mapping: Object.fromEntries of a Map
keeps key order and values, then each comment is serialized. -/
def serializeStore (m : CommentMap) : CommentMap :=
  m.map (fun pc => (pc.1, pc.2.map serializeComment))

/-- The conversion loop of CommentStorageManager.loadComments: spread the
parsed comment, revive createdAt with new Date, and revive the createdAt of
each direct reply; deeper replies are left as parsed. -/
def loadConvertReply : ReviewComment → ReviewComment
  | .mk i f a b t n ca r s replies p => .mk i f a b t n ca.newDate r s replies p

/-- One parsed comment as rebuilt by loadComments. -/
def loadConvertComment : ReviewComment → ReviewComment
  | .mk i f a b t n ca r s replies p =>
    .mk i f a b t n ca.newDate r s (replies.map loadConvertReply) p

/-- Interface CommentStorage of src/core/types.ts: the single JSON document
with a version tag and the whole mapping. -/
structure CommentStorage where
  version : String
  comments : CommentMap

/-- Content of the workspace storage file .kubelingo-reviews.json. -/
inductive StorageFile where
  | absent
  | corrupt
  | content (s : CommentStorage)

/-- Ambient state seen by CommentStorageManager: the workspace root captured
at construction (the empty string when no workspace folder exists) and the
storage file. -/
structure SysState where
  workspaceRoot : String
  file : StorageFile

/-- Completion of CommentStorageManager.saveComments. -/
inductive SaveResult where
  | saved
  | skippedNoWorkspace
  | threw (e : String)
deriving DecidableEq, Repr

/-- CommentStorageManager.saveComments: with no workspace root, warn and
return without writing; otherwise serialize the whole mapping into one
document with version 1.0 and write it, rethrowing a filesystem rejection
(writeErr is the oracle for the write outcome). -/
def saveComments (st : SysState) (m : CommentMap) (writeErr : Option String) :
    SysState × SaveResult :=
  if st.workspaceRoot == "" then (st, .skippedNoWorkspace)
  else
    match writeErr with
    | none => ({ st with file := .content { version := "1.0", comments := serializeStore m } }, .saved)
    | some e => (st, .threw e)

/-- CommentStorageManager.loadComments: with no workspace root return the
empty map; a missing or unparsable file also falls back to empty inside the
catch; otherwise rebuild the map from the document entries, reviving the
dates of comments and direct replies. -/
def loadComments (st : SysState) : CommentMap :=
  if st.workspaceRoot == "" then []
  else
    match st.file with
    | .content s => s.comments.map (fun pc => (pc.1, pc.2.map loadConvertComment))
    | _ => []

/-- JS Map.set: replace the value in place when the key exists, else append. -/
def setEntry : CommentMap → String → List ReviewComment → CommentMap
  | [], p, cs => [(p, cs)]
  | (q, ds) :: rest, p, cs =>
    if q == p then (q, cs) :: rest
    else (q, ds) :: setEntry rest p cs

/-- Lookup of a file path in the mapping (JS Map.get). -/
def lookupEntry (m : CommentMap) (p : String) : Option (List ReviewComment) :=
  (m.find? (fun pc => pc.1 == p)).map (fun pc => pc.2)

/-- CommentStorageManager.saveFileComments: read-modify-write of the whole
store through loadComments, Map.set and saveComments. -/
def saveFileComments (st : SysState) (p : String) (cs : List ReviewComment)
    (writeErr : Option String) : SysState × SaveResult :=
  saveComments st (setEntry (loadComments st) p cs) writeErr

/-- Well-formed parsed document: every createdAt in the tree is ISO text, as
JSON.parse always yields (JSON has no Date values). -/
inductive AllIso : ReviewComment → Prop where
  | mk (i f a b : String) (t : CommentType) (n : Int) (ms : Int) (r : Bool)
       (s : Option ReviewCommentSuggestion) (replies : List ReviewComment)
       (p : Option Int) :
      (∀ c ∈ replies, AllIso c) →
      AllIso (.mk i f a b t n (.isoString ms) r s replies p)

/-- Well-formed in-memory comment per the data model: createdAt is a Date
and each reply carries a Date and no further nesting. -/
def WellFormedMem (c : ReviewComment) : Prop :=
  c.createdAt.isDateObj = true ∧
  ∀ r ∈ c.replies, r.createdAt.isDateObj = true ∧ r.replies = []

/-!
PRInfoService (src/features/review/PRInfoService.ts).  Each gh CLI
invocation is an oracle in RemoteEnv, keyed by the PR number and the
optional --repo argument; an Except.error value is the rejected promise
with its diagnostic text.
-/

/-- JS expression v || dflt on an optional string (undefined, null and the
empty string are falsy). -/
def jsOrStr (v : Option String) (dflt : String) : String :=
  match v with
  | none => dflt
  | some s => if s == "" then dflt else s

/-- JS expression v || 0 on an optional number. -/
def jsOrNum (v : Option Int) : Int := v.getD 0

/-- Substring test (String.prototype.includes). -/
def containsStr (s pat : String) : Bool := (listFind pat.toList s.toList).isSome

/-- Parsed output of gh repo view --json isFork,parent. -/
structure RawRepoView where
  isFork : Bool
  parent : Option (String × String)
deriving Repr

/-- Parsed output of gh pr view --json number,title,... for one PR. -/
structure RawPRInfo where
  number : Int
  title : String
  state : String
  authorLogin : Option String
  createdAt : String
  updatedAt : String
  baseRefName : String
  headRefName : String
  url : String
  body : Option String
deriving Repr

/-- One element of the files array of gh pr view --json files. -/
structure RawPRFile where
  path : String
  changeType : Option String
  additions : Option Int
  deletions : Option Int
  previousPath : Option String
deriving Repr

/-- One element of the commits array of gh pr view --json commits. -/
structure RawPRCommit where
  oid : String
  messageHeadline : String
  authorsFirstLogin : Option String
  committerName : Option String
  committedDate : String
deriving Repr

/-- The user object of a raw review comment (every field may be missing). -/
structure RawGitHubUser where
  login : Option String
  id : Option Int
  node_id : Option String
  avatar_url : Option String
  html_url : Option String
  type : Option String
  site_admin : Option Bool
deriving Repr

/-- The reactions object of a raw review comment. -/
structure RawReactions where
  plus_one : Option Int
  minus_one : Option Int
  laugh : Option Int
  confused : Option Int
  heart : Option Int
  hooray : Option Int
  rocket : Option Int
  eyes : Option Int
  total_count : Option Int
  url : Option String
deriving Repr

/-- One element of the REST pulls/comments payload, with the fields the
service reads. -/
structure RawReviewCommentWire where
  id : Int
  node_id : String
  path : String
  line : Option Int
  body : String
  user : Option RawGitHubUser
  created_at : String
  updated_at : String
  diff_hunk : Option String
  start_line : Option Int
  start_side : Option String
  original_line : Option Int
  original_start_line : Option Int
  side : Option String
  commit_id : String
  original_commit_id : String
  position : Option Int
  original_position : Int
  pull_request_review_id : Int
  subject_type : Option String
  html_url : String
  url : String
  pull_request_url : String
  author_association : String
  reactions : Option RawReactions
deriving Repr

/-- Normalized PRInfo value object of PRInfoService.ts. -/
structure PRInfo where
  number : Int
  title : String
  state : String
  author : String
  createdAt : String
  updatedAt : String
  baseBranch : String
  headBranch : String
  url : String
  body : Option String
deriving DecidableEq, Repr

/-- Change kind of a PR file. -/
inductive FileStatus where
  | added
  | modified
  | removed
  | renamed
deriving DecidableEq, Repr

/-- Normalized PRFileChange value object. -/
structure PRFileChange where
  path : String
  status : FileStatus
  additions : Int
  deletions : Int
  changes : Int
  previousPath : Option String
deriving DecidableEq, Repr

/-- Normalized PRCommit value object. -/
structure PRCommit where
  sha : String
  message : String
  author : String
  date : String
deriving DecidableEq, Repr

/-- Normalized GitHubUser value object. -/
structure GitHubUser where
  login : String
  id : Int
  nodeId : String
  avatarUrl : String
  htmlUrl : String
  type : String
  siteAdmin : Bool
deriving DecidableEq, Repr

/-- Normalized Reactions value object. -/
structure Reactions where
  plusOne : Int
  minusOne : Int
  laugh : Int
  confused : Int
  heart : Int
  hooray : Int
  rocket : Int
  eyes : Int
  totalCount : Int
  url : String
deriving DecidableEq, Repr

/-- Normalized PRReviewComment value object. -/
structure PRReviewComment where
  id : Int
  nodeId : String
  path : String
  line : Option Int
  body : String
  user : GitHubUser
  createdAt : String
  updatedAt : String
  diffHunk : String
  startLine : Option Int
  startSide : Option String
  originalLine : Option Int
  originalStartLine : Option Int
  side : String
  commitId : String
  originalCommitId : String
  position : Option Int
  originalPosition : Int
  pullRequestReviewId : Int
  subjectType : String
  htmlUrl : String
  url : String
  pullRequestUrl : String
  authorAssociation : String
  reactions : Reactions
deriving DecidableEq, Repr

/-- Oracles for the gh CLI calls the service makes, keyed by PR number and
the optional --repo argument. -/
structure RemoteEnv where
  repoView : Except String RawRepoView
  prInfoRaw : Int → Option String → Except String RawPRInfo
  prFilesRaw : Int → Option String → Except String (List RawPRFile)
  prCommitsRaw : Int → Option String → Except String (List RawPRCommit)
  prCommentsRaw : Int → Option String → Except String (List RawReviewCommentWire)

/-- PRInfoService.getParentRepo: owner/name of the fork parent, or null on a
non-fork, a missing parent, or any CLI failure (caught). -/
def getParentRepo (env : RemoteEnv) : Option String :=
  match env.repoView with
  | .error _ => none
  | .ok d =>
    if d.isFork then
      match d.parent with
      | some (owner, name) => some (owner ++ "/" ++ name)
      | none => none
    else none

/-- PRInfoService.getTargetRepo: the fork parent when there is one, else
null meaning the current repository. -/
def getTargetRepo (env : RemoteEnv) : Option String := getParentRepo env

/-- The targetRepo defaulting prologue shared by the PR operations: a falsy
argument (undefined or the empty string) is replaced by getTargetRepo. -/
def resolveTargetRepo (env : RemoteEnv) (targetRepo : Option String) : Option String :=
  match targetRepo with
  | none => getTargetRepo env
  | some s => if s == "" then getTargetRepo env else some s

/-- PRInfoService.getPRInfo: normalize the raw payload; a CLI failure is
rethrown with its diagnostic. -/
def getPRInfo (env : RemoteEnv) (prNumber : Int) (targetRepo : Option String) :
    Except String PRInfo :=
  let repo := resolveTargetRepo env targetRepo
  match env.prInfoRaw prNumber repo with
  | .error e => .error e
  | .ok d =>
    .ok { number := d.number, title := d.title, state := d.state.toLower,
          author := jsOrStr d.authorLogin "unknown", createdAt := d.createdAt,
          updatedAt := d.updatedAt, baseBranch := d.baseRefName,
          headBranch := d.headRefName, url := d.url, body := d.body }

/-- PRInfoService._normalizeStatus: substring checks on the lowercased raw
change kind, defaulting to modified. -/
def normalizeStatus (status : String) : FileStatus :=
  let ls := status.toLower
  if containsStr ls "add" then .added
  else if containsStr ls "modif" || containsStr ls "change" then .modified
  else if containsStr ls "delet" || containsStr ls "remov" then .removed
  else if containsStr ls "renam" then .renamed
  else .modified

/-- Normalization of one raw changed file. -/
def normalizeFile (f : RawPRFile) : PRFileChange :=
  { path := f.path, status := normalizeStatus (jsOrStr f.changeType "modified"),
    additions := jsOrNum f.additions, deletions := jsOrNum f.deletions,
    changes := jsOrNum f.additions + jsOrNum f.deletions,
    previousPath := f.previousPath }

/-- PRInfoService.getPRFiles: a CLI failure is caught and becomes the empty
list (the diagnostic is only logged). -/
def getPRFiles (env : RemoteEnv) (prNumber : Int) (targetRepo : Option String) :
    Except String (List PRFileChange) :=
  let repo := resolveTargetRepo env targetRepo
  match env.prFilesRaw prNumber repo with
  | .error _ => .ok []
  | .ok fs => .ok (fs.map normalizeFile)

/-- Normalization of one raw commit. -/
def normalizeCommit (c : RawPRCommit) : PRCommit :=
  { sha := c.oid, message := c.messageHeadline,
    author := jsOrStr c.authorsFirstLogin (jsOrStr c.committerName "unknown"),
    date := c.committedDate }

/-- PRInfoService.getPRCommits: a CLI failure is caught and becomes the
empty list. -/
def getPRCommits (env : RemoteEnv) (prNumber : Int) (targetRepo : Option String) :
    Except String (List PRCommit) :=
  let repo := resolveTargetRepo env targetRepo
  match env.prCommitsRaw prNumber repo with
  | .error _ => .ok []
  | .ok cs => .ok (cs.map normalizeCommit)

/-- Normalization of the user object with per-field defaults. -/
def normalizeUser (u : Option RawGitHubUser) : GitHubUser :=
  { login := jsOrStr (u.bind (fun x => x.login)) "unknown",
    id := jsOrNum (u.bind (fun x => x.id)),
    nodeId := jsOrStr (u.bind (fun x => x.node_id)) "",
    avatarUrl := jsOrStr (u.bind (fun x => x.avatar_url)) "",
    htmlUrl := jsOrStr (u.bind (fun x => x.html_url)) "",
    type := jsOrStr (u.bind (fun x => x.type)) "User",
    siteAdmin := (u.bind (fun x => x.site_admin)).getD false }

/-- Normalization of the reactions object with per-field defaults. -/
def normalizeReactions (r : Option RawReactions) : Reactions :=
  { plusOne := jsOrNum (r.bind (fun x => x.plus_one)),
    minusOne := jsOrNum (r.bind (fun x => x.minus_one)),
    laugh := jsOrNum (r.bind (fun x => x.laugh)),
    confused := jsOrNum (r.bind (fun x => x.confused)),
    heart := jsOrNum (r.bind (fun x => x.heart)),
    hooray := jsOrNum (r.bind (fun x => x.hooray)),
    rocket := jsOrNum (r.bind (fun x => x.rocket)),
    eyes := jsOrNum (r.bind (fun x => x.eyes)),
    totalCount := jsOrNum (r.bind (fun x => x.total_count)),
    url := jsOrStr (r.bind (fun x => x.url)) "" }

/-- Normalization of one raw review comment in getPRComments. -/
def normalizeReviewComment (c : RawReviewCommentWire) : PRReviewComment :=
  { id := c.id, nodeId := c.node_id, path := c.path, line := c.line,
    body := c.body, user := normalizeUser c.user, createdAt := c.created_at,
    updatedAt := c.updated_at, diffHunk := jsOrStr c.diff_hunk "",
    startLine := c.start_line, startSide := c.start_side,
    originalLine := c.original_line, originalStartLine := c.original_start_line,
    side := if c.side == some "LEFT" then "LEFT" else "RIGHT",
    commitId := c.commit_id, originalCommitId := c.original_commit_id,
    position := c.position, originalPosition := c.original_position,
    pullRequestReviewId := c.pull_request_review_id,
    subjectType := jsOrStr c.subject_type "line", htmlUrl := c.html_url,
    url := c.url, pullRequestUrl := c.pull_request_url,
    authorAssociation := c.author_association,
    reactions := normalizeReactions c.reactions }

/-- PRInfoService.getPRComments: a CLI failure is caught and becomes the
empty list. -/
def getPRComments (env : RemoteEnv) (prNumber : Int) (targetRepo : Option String) :
    Except String (List PRReviewComment) :=
  let repo := resolveTargetRepo env targetRepo
  match env.prCommentsRaw prNumber repo with
  | .error _ => .ok []
  | .ok cs => .ok (cs.map normalizeReviewComment)

/-!
Basic lemmas about the data model.
-/

@[simp]
theorem ReviewComment.id_mk (i f a b : String) (t : CommentType) (n : Int) (ca : JsDate)
    (r : Bool) (s : Option ReviewCommentSuggestion) (rs : List ReviewComment) (p : Option Int) :
    (ReviewComment.mk i f a b t n ca r s rs p).id = i := rfl

@[simp]
theorem ReviewComment.body_mk (i f a b : String) (t : CommentType) (n : Int) (ca : JsDate)
    (r : Bool) (s : Option ReviewCommentSuggestion) (rs : List ReviewComment) (p : Option Int) :
    (ReviewComment.mk i f a b t n ca r s rs p).body = b := rfl

@[simp]
theorem ReviewComment.type_mk (i f a b : String) (t : CommentType) (n : Int) (ca : JsDate)
    (r : Bool) (s : Option ReviewCommentSuggestion) (rs : List ReviewComment) (p : Option Int) :
    (ReviewComment.mk i f a b t n ca r s rs p).type = t := rfl

@[simp]
theorem ReviewComment.lineNumber_mk (i f a b : String) (t : CommentType) (n : Int) (ca : JsDate)
    (r : Bool) (s : Option ReviewCommentSuggestion) (rs : List ReviewComment) (p : Option Int) :
    (ReviewComment.mk i f a b t n ca r s rs p).lineNumber = n := rfl

@[simp]
theorem ReviewComment.createdAt_mk (i f a b : String) (t : CommentType) (n : Int) (ca : JsDate)
    (r : Bool) (s : Option ReviewCommentSuggestion) (rs : List ReviewComment) (p : Option Int) :
    (ReviewComment.mk i f a b t n ca r s rs p).createdAt = ca := rfl

@[simp]
theorem ReviewComment.resolved_mk (i f a b : String) (t : CommentType) (n : Int) (ca : JsDate)
    (r : Bool) (s : Option ReviewCommentSuggestion) (rs : List ReviewComment) (p : Option Int) :
    (ReviewComment.mk i f a b t n ca r s rs p).resolved = r := rfl

@[simp]
theorem ReviewComment.suggestion_mk (i f a b : String) (t : CommentType) (n : Int) (ca : JsDate)
    (r : Bool) (s : Option ReviewCommentSuggestion) (rs : List ReviewComment) (p : Option Int) :
    (ReviewComment.mk i f a b t n ca r s rs p).suggestion = s := rfl

@[simp]
theorem ReviewComment.replies_mk (i f a b : String) (t : CommentType) (n : Int) (ca : JsDate)
    (r : Bool) (s : Option ReviewCommentSuggestion) (rs : List ReviewComment) (p : Option Int) :
    (ReviewComment.mk i f a b t n ca r s rs p).replies = rs := rfl

@[simp]
theorem ReviewComment.prCommentId_mk (i f a b : String) (t : CommentType) (n : Int) (ca : JsDate)
    (r : Bool) (s : Option ReviewCommentSuggestion) (rs : List ReviewComment) (p : Option Int) :
    (ReviewComment.mk i f a b t n ca r s rs p).prCommentId = p := rfl

@[simp]
theorem setResolvedTrue_id (c : ReviewComment) : c.setResolvedTrue.id = c.id := by
  cases c
  rfl

@[simp]
theorem setResolvedTrue_resolved (c : ReviewComment) : c.setResolvedTrue.resolved = true := by
  cases c
  rfl

theorem setResolvedTrue_eq_self (c : ReviewComment) (h : c.resolved = true) :
    c.setResolvedTrue = c := by
  cases c
  simp only [ReviewComment.resolved_mk] at h
  simp [ReviewComment.setResolvedTrue, h]

/-!
Lemmas about the unsynced-comment selection and the push loop.
-/

theorem mem_getUnresolvedComments_iff (m : CommentMap) (c : ReviewComment) :
    c ∈ getUnresolvedComments m ↔ c ∈ allComments m ∧ c.resolved = false := by
  simp only [getUnresolvedComments, allComments, List.mem_flatten, List.mem_map]
  constructor
  · rintro ⟨l, ⟨pc, hpc, rfl⟩, hc⟩
    rw [List.mem_filter] at hc
    exact ⟨⟨pc.2, ⟨pc, hpc, rfl⟩, hc.1⟩, by simpa using hc.2⟩
  · rintro ⟨⟨l, ⟨pc, hpc, rfl⟩, hc⟩, hres⟩
    refine ⟨pc.2.filter (fun c => !c.resolved), ⟨pc, hpc, rfl⟩, ?_⟩
    rw [List.mem_filter]
    exact ⟨hc, by simp [hres]⟩

theorem mem_unsyncedComments_iff (m : CommentMap) (c : ReviewComment) :
    c ∈ unsyncedComments m ↔
      c ∈ allComments m ∧ c.resolved = false ∧ jsTruthyNum c.prCommentId = false := by
  simp only [unsyncedComments, List.mem_filter, mem_getUnresolvedComments_iff]
  constructor
  · rintro ⟨⟨hm, hres⟩, hsync⟩
    exact ⟨hm, hres, by simpa using hsync⟩
  · rintro ⟨hm, hres, hsync⟩
    exact ⟨⟨hm, hres⟩, by simp [hsync]⟩

theorem pushLoop_attempted (pushOk : ReviewComment → Bool) (l : List ReviewComment) :
    (pushLoop pushOk l).1 = l := by
  induction l with
  | nil => rfl
  | cons c rest ih => simp [pushLoop, ih]

theorem pushLoop_count (pushOk : ReviewComment → Bool) (l : List ReviewComment) :
    (pushLoop pushOk l).2 = l.countP (fun c => pushOk c) := by
  induction l with
  | nil => rfl
  | cons c rest ih =>
    simp only [pushLoop, List.countP_cons, ih]
    by_cases h : pushOk c = true
    · simp [h, Nat.add_comm]
    · simp [h, Bool.eq_false_iff.mpr h]

theorem pushAllToGitHub_noVerdict (m : CommentMap) (prNumber : Option Int)
    (pushOk : ReviewComment → Bool) (submitErr : Option String) :
    pushAllToGitHub m prNumber none pushOk submitErr =
      { attempted := unsyncedComments m,
        result := .ok ((unsyncedComments m).countP (fun c => pushOk c)) } := by
  simp [pushAllToGitHub, pushLoop_attempted, pushLoop_count]

/-!
Concrete fixtures used by counterexamples and witnesses.
-/

/-- Unresolved local comment without a remote id. -/
def fixA : ReviewComment :=
  .mk "a" "f" "me" "body-a" .general 1 (.date 0) false none [] none

/-- Unresolved comment whose remote id is the (JS-falsy) number zero. -/
def fixBZero : ReviewComment :=
  .mk "b" "f" "me" "body-b" .general 2 (.date 0) false none [] (some 0)

/-- Unresolved comment with a nonzero remote id. -/
def fixBSeven : ReviewComment :=
  .mk "b" "f" "me" "body-b" .general 2 (.date 0) false none [] (some 7)

/-- Resolved comment without a remote id. -/
def fixC : ReviewComment :=
  .mk "c" "f" "me" "body-c" .general 3 (.date 0) true none [] none

/-- C1: the claim says pushAllToGitHub without a verdict attempts exactly the
unresolved comments lacking a remote comment id, so at most the A-like one of
the A/B/C set.  The code filters with the JS-falsy test on prCommentId, so an
unresolved comment whose remote id is the number 0 is also attempted: with B
carrying remote id 0, both A and B are pushed and the reported count is 2. -/
theorem claim_C1_cex :
    (pushAllToGitHub [("f", [fixA, fixBZero, fixC])] none none (fun _ => true) none).result =
      Except.ok 2 ∧
    fixBZero.resolved = false ∧ fixBZero.prCommentId = some 0 := by
  refine ⟨rfl, rfl, rfl⟩

/-- C1 (amended): pushAllToGitHub without a review verdict attempts exactly
the unresolved comments whose prCommentId is JS-falsy (absent or zero), one
at a time in store order; a failing push is excluded from the count without
aborting the siblings, and the returned count is the number of successful
pushes.  In the A/B/C example with a nonzero remote id on B it attempts
exactly A and returns 1 or 0 as the push of A succeeds or fails. -/
theorem claim_C1 :
    (∀ (m : CommentMap) (prNumber : Option Int) (pushOk : ReviewComment → Bool)
       (submitErr : Option String),
      (pushAllToGitHub m prNumber none pushOk submitErr).attempted = unsyncedComments m ∧
      (∀ c, c ∈ (pushAllToGitHub m prNumber none pushOk submitErr).attempted ↔
        c ∈ allComments m ∧ c.resolved = false ∧ jsTruthyNum c.prCommentId = false) ∧
      (pushAllToGitHub m prNumber none pushOk submitErr).result =
        .ok ((unsyncedComments m).countP (fun c => pushOk c)) ∧
      (unsyncedComments m).countP (fun c => pushOk c) ≤ (unsyncedComments m).length) ∧
    (∀ (a b c : ReviewComment) (fp : String) (prNumber : Option Int)
       (pushOk : ReviewComment → Bool) (submitErr : Option String) (n : Int),
      a.resolved = false → a.prCommentId = none →
      b.resolved = false → b.prCommentId = some n → n ≠ 0 →
      c.resolved = true →
      (pushAllToGitHub [(fp, [a, b, c])] prNumber none pushOk submitErr).attempted = [a] ∧
      (pushAllToGitHub [(fp, [a, b, c])] prNumber none pushOk submitErr).result =
        .ok (if pushOk a then 1 else 0)) := by
  constructor
  · intro m prNumber pushOk submitErr
    rw [pushAllToGitHub_noVerdict]
    refine ⟨rfl, ?_, rfl, List.countP_le_length _⟩
    intro c
    simpa using mem_unsyncedComments_iff m c
  · intro a b c fp prNumber pushOk submitErr n ha1 ha2 hb1 hb2 hn hc1
    rw [pushAllToGitHub_noVerdict]
    have hbne : (n != 0) = true := by simpa using hn
    have hun : unsyncedComments [(fp, [a, b, c])] = [a] := by
      simp [unsyncedComments, getUnresolvedComments, List.filter, ha1, ha2, hb1, hb2, hc1,
        jsTruthyNum, hbne]
    rw [hun]
    simp [List.countP_cons]

/-- C1 witness: the A/B/C scenario with remote id 7 on B and every push
succeeding attempts exactly A and reports one success. -/
theorem claim_C1_witness :
    fixA.resolved = false ∧ fixA.prCommentId = none ∧ fixBSeven.resolved = false ∧
    fixBSeven.prCommentId = some 7 ∧ (7 : Int) ≠ 0 ∧ fixC.resolved = true ∧
    (pushAllToGitHub [("f", [fixA, fixBSeven, fixC])] none none (fun _ => true) none).attempted =
      [fixA] ∧
    (pushAllToGitHub [("f", [fixA, fixBSeven, fixC])] none none (fun _ => true) none).result =
      .ok (if (fun _ : ReviewComment => true) fixA then 1 else 0) := by
  have h := claim_C1.2 fixA fixBSeven fixC "f" none (fun _ => true) none 7
    rfl rfl rfl rfl (by decide) rfl
  exact ⟨rfl, rfl, rfl, rfl, by decide, rfl, h.1, h.2⟩

/-- C9: the claim says an imported comment carries the remote id and is never
selected by the unsynced filter.  The filter tests JS falsiness, so the
imported copy of a remote comment whose id is 0 is selected and pushed again. -/
theorem claim_C9_cex :
    (convertToReviewComment ⟨0, "f", 1, "hello", "me", 0⟩).prCommentId = some 0 ∧
    (convertToReviewComment ⟨0, "f", 1, "hello", "me", 0⟩).resolved = false ∧
    (pushAllToGitHub [("f", [convertToReviewComment ⟨0, "f", 1, "hello", "me", 0⟩])]
        none none (fun _ => true) none).attempted =
      [convertToReviewComment ⟨0, "f", 1, "hello", "me", 0⟩] := by
  refine ⟨rfl, rfl, ?_⟩
  rw [pushAllToGitHub_noVerdict]
  rfl

/-- C9 (amended): a comment imported by convertToReviewComment carries
prCommentId equal to the remote id and resolved false; provided the remote
id is nonzero (always true of real GitHub ids), such a comment is never
selected by the unsynced filter of pushAllToGitHub, hence never pushed. -/
theorem claim_C9 (gh : GitHubPRComment) :
    (convertToReviewComment gh).prCommentId = some gh.id ∧
    (convertToReviewComment gh).resolved = false ∧
    (gh.id ≠ 0 → ∀ (m : CommentMap) (prNumber : Option Int)
      (pushOk : ReviewComment → Bool) (submitErr : Option String),
      convertToReviewComment gh ∉ (pushAllToGitHub m prNumber none pushOk submitErr).attempted) := by
  refine ⟨rfl, rfl, ?_⟩
  intro hid m prNumber pushOk submitErr hmem
  rw [pushAllToGitHub_noVerdict] at hmem
  rw [mem_unsyncedComments_iff] at hmem
  have hsync := hmem.2.2
  have hpr : (convertToReviewComment gh).prCommentId = some gh.id := rfl
  rw [hpr] at hsync
  simp only [jsTruthyNum] at hsync
  exact hid (by simpa using hsync)

/-- C9 witness: the import of a remote comment with id 5 is not attempted by
a push over a store containing it. -/
theorem claim_C9_witness :
    (convertToReviewComment ⟨5, "f", 1, "hello", "me", 0⟩).prCommentId = some 5 ∧
    (convertToReviewComment ⟨5, "f", 1, "hello", "me", 0⟩).resolved = false ∧
    (5 : Int) ≠ 0 ∧
    convertToReviewComment ⟨5, "f", 1, "hello", "me", 0⟩ ∉
      (pushAllToGitHub [("f", [convertToReviewComment ⟨5, "f", 1, "hello", "me", 0⟩])]
        none none (fun _ => true) none).attempted := by
  have h := claim_C9 ⟨5, "f", 1, "hello", "me", 0⟩
  exact ⟨h.1, h.2.1, by decide,
    h.2.2 (by decide) [("f", [convertToReviewComment ⟨5, "f", 1, "hello", "me", 0⟩])]
      none (fun _ => true) none⟩

/-!
Claim C5: error handling of the PR metadata operations.
-/

/-- Remote environment in which every gh CLI call fails with diagnostic
boom. -/
def envFail : RemoteEnv :=
  { repoView := .error "no repo",
    prInfoRaw := fun _ _ => .error "boom",
    prFilesRaw := fun _ _ => .error "boom",
    prCommitsRaw := fun _ _ => .error "boom",
    prCommentsRaw := fun _ _ => .error "boom" }

/-- C5: the claim says every PR metadata operation propagates a remote-call
failure to the caller.  Only getPRInfo does: getPRFiles, getPRCommits and
getPRComments catch the failure and return the empty list, discarding the
diagnostic. -/
theorem claim_C5_cex :
    getPRFiles envFail 1 none = Except.ok [] ∧
    getPRCommits envFail 1 none = Except.ok [] ∧
    getPRComments envFail 1 none = Except.ok [] := by
  refine ⟨rfl, rfl, rfl⟩

/-- C5 (amended): a failure of the underlying gh call is propagated with its
diagnostic text by getPRInfo; getPRFiles, getPRCommits and getPRComments
swallow the failure and return an empty list.  None of the operations
retries: each consults its single call result once. -/
theorem claim_C5 (env : RemoteEnv) (prNumber : Int) (targetRepo : Option String) (e : String) :
    (env.prInfoRaw prNumber (resolveTargetRepo env targetRepo) = .error e →
      getPRInfo env prNumber targetRepo = .error e) ∧
    (env.prFilesRaw prNumber (resolveTargetRepo env targetRepo) = .error e →
      getPRFiles env prNumber targetRepo = .ok []) ∧
    (env.prCommitsRaw prNumber (resolveTargetRepo env targetRepo) = .error e →
      getPRCommits env prNumber targetRepo = .ok []) ∧
    (env.prCommentsRaw prNumber (resolveTargetRepo env targetRepo) = .error e →
      getPRComments env prNumber targetRepo = .ok []) := by
  refine ⟨?_, ?_, ?_, ?_⟩ <;> intro h
  · simp only [getPRInfo, h]
  · simp only [getPRFiles, h]
  · simp only [getPRCommits, h]
  · simp only [getPRComments, h]

/-- C5 witness: with every call failing with boom, getPRInfo surfaces the
diagnostic and the three list operations return empty lists. -/
theorem claim_C5_witness :
    getPRInfo envFail 1 none = Except.error "boom" ∧
    getPRFiles envFail 1 none = Except.ok [] ∧
    getPRCommits envFail 1 none = Except.ok [] ∧
    getPRComments envFail 1 none = Except.ok [] := by
  have h := claim_C5 envFail 1 none "boom"
  exact ⟨h.1 rfl, h.2.1 rfl, h.2.2.1 rfl, h.2.2.2 rfl⟩

/-!
Claim C6: failure modes of saveComments.
-/

/-- C6: the claim says saveComments fails with a PersistenceError when the
workspace root is unknown.  The code logs a warning and returns normally
without writing in that case; only a rejected filesystem write is thrown. -/
theorem claim_C6_cex :
    saveComments ⟨"", .absent⟩ [("f", [fixA])] none =
      (⟨"", .absent⟩, SaveResult.skippedNoWorkspace) := by
  rfl

/-- Mapping the values of the store commutes with key lookup. -/
theorem lookupEntry_map_values (g : List ReviewComment → List ReviewComment)
    (m : CommentMap) (q : String) :
    lookupEntry (m.map (fun pc => (pc.1, g pc.2))) q = (lookupEntry m q).map g := by
  induction m with
  | nil => rfl
  | cons pc rest ih =>
    by_cases h : pc.1 == q
    · simp [lookupEntry, List.find?, h]
    · simp only [List.map_cons]
      rw [lookupEntry, lookupEntry, List.find?, List.find?]
      simp only [h]
      exact ih

/-- C6 (amended): with an unknown workspace root, saveComments logs and
returns without error and without writing; with a known root it serializes
the entire mapping into one JSON document tagged version 1.0 (every key of
the mapping is stored with its serialized comments), and a filesystem
rejection is rethrown with its diagnostic, leaving the file unchanged. -/
theorem claim_C6 (st : SysState) (m : CommentMap) :
    (st.workspaceRoot = "" → ∀ writeErr, saveComments st m writeErr = (st, .skippedNoWorkspace)) ∧
    (st.workspaceRoot ≠ "" →
      saveComments st m none =
        ({ st with file := .content { version := "1.0", comments := serializeStore m } },
          .saved) ∧
      ∀ q, lookupEntry (serializeStore m) q = (lookupEntry m q).map (List.map serializeComment)) ∧
    (st.workspaceRoot ≠ "" → ∀ e, saveComments st m (some e) = (st, .threw e)) := by
  refine ⟨?_, ?_, ?_⟩
  · intro h writeErr
    simp [saveComments, h]
  · intro h
    have hb : (st.workspaceRoot == "") = false := by simpa using h
    exact ⟨by simp [saveComments, hb], fun q => lookupEntry_map_values _ m q⟩
  · intro h e
    have hb : (st.workspaceRoot == "") = false := by simpa using h
    simp [saveComments, hb]

/-- C6 witness: with a known workspace root the whole mapping is written as
one document with the version tag, and a rejected write is rethrown. -/
theorem claim_C6_witness :
    saveComments ⟨"root", .absent⟩ [("f", [])] none =
      (⟨"root", .content { version := "1.0", comments := serializeStore [("f", [])] }⟩,
        .saved) ∧
    saveComments ⟨"root", .absent⟩ [("f", [])] (some "disk full") =
      (⟨"root", .absent⟩, .threw "disk full") ∧
    saveComments ⟨"", .absent⟩ [("f", [])] none = (⟨"", .absent⟩, .skippedNoWorkspace) := by
  refine ⟨((claim_C6 ⟨"root", .absent⟩ [("f", [])]).2.1 (by decide)).1,
    (claim_C6 ⟨"root", .absent⟩ [("f", [])]).2.2 (by decide) "disk full",
    (claim_C6 ⟨"", .absent⟩ [("f", [])]).1 rfl none⟩

/-!
Claim C7: reporting of unknown comment ids.
-/

/-- C7: the claim says resolveComment, applySuggestion and rejectSuggestion
all report a lookup failure.  resolveComment returns silently on an unknown
id, showing nothing. -/
theorem claim_C7_cex :
    resolveComment ⟨[], [], none⟩ "missing" = (⟨[], [], none⟩, .completed []) := by
  rfl

/-- C7 (amended): on an unknown comment id, applySuggestion reports the
failure with the Suggestion not found error; resolveComment returns silently
with no message and no state change; rejectSuggestion silently skips the
resolution and still reports the Suggestion rejected notice. -/
theorem claim_C7 (st : CtrlState) (commentId : String) (editSuccess : Bool)
    (h : findComment st.comments commentId = none) :
    applySuggestion st commentId editSuccess =
      (st, .completed [UserMsg.error "Suggestion not found"]) ∧
    resolveComment st commentId = (st, .completed []) ∧
    rejectSuggestion st commentId = (st, .completed [UserMsg.info "Suggestion rejected"]) := by
  refine ⟨?_, ?_, ?_⟩
  · simp [applySuggestion, h]
  · simp [resolveComment, h]
  · simp [rejectSuggestion, resolveComment, h]

/-- C7 witness: looking up the id zz in a store holding only comment c. -/
theorem claim_C7_witness :
    findComment [("f", [fixC])] "zz" = none ∧
    applySuggestion ⟨[("f", [fixC])], [], none⟩ "zz" true =
      (⟨[("f", [fixC])], [], none⟩, .completed [UserMsg.error "Suggestion not found"]) ∧
    resolveComment ⟨[("f", [fixC])], [], none⟩ "zz" =
      (⟨[("f", [fixC])], [], none⟩, .completed []) ∧
    rejectSuggestion ⟨[("f", [fixC])], [], none⟩ "zz" =
      (⟨[("f", [fixC])], [], none⟩, .completed [UserMsg.info "Suggestion rejected"]) := by
  exact ⟨rfl, claim_C7 ⟨[("f", [fixC])], [], none⟩ "zz" true rfl⟩

/-!
Claim C2: applySuggestion success and failure paths.
-/

/-- Resolving inside one list rewrites what find? sees: the first match gains
resolved true, everything else is untouched. -/
theorem find?_setResolvedFirst (commentId : String) (cs : List ReviewComment) :
    (setResolvedFirst commentId cs).find? (fun c => c.id == commentId) =
      (cs.find? (fun c => c.id == commentId)).map ReviewComment.setResolvedTrue := by
  induction cs with
  | nil => rfl
  | cons c rest ih =>
    by_cases h : c.id == commentId
    · rw [setResolvedFirst]
      simp only [if_pos h]
      rw [List.find?, List.find?]
      simp [h]
    · have h' : (c.id == commentId) = false := by simpa using h
      rw [setResolvedFirst]
      simp only [if_neg h]
      rw [List.find?, List.find?]
      simp only [setResolvedTrue_id, h']
      exact ih

/-- findComment after the resolveComment map update returns the same comment
with resolved set. -/
theorem findComment_resolveInMap (m : CommentMap) (commentId : String) :
    findComment (resolveInMap m commentId) commentId =
      (findComment m commentId).map ReviewComment.setResolvedTrue := by
  induction m with
  | nil => rfl
  | cons pc rest ih =>
    obtain ⟨p, cs⟩ := pc
    by_cases h : cs.any (fun c => c.id == commentId)
    · rw [resolveInMap]
      simp only [if_pos h]
      rw [findComment, findComment, find?_setResolvedFirst]
      rcases hf : cs.find? (fun c => c.id == commentId) with _ | c
      · rw [List.find?_eq_none] at hf
        rw [List.any_eq_true] at h
        obtain ⟨x, hx, hpx⟩ := h
        exact absurd hpx (by simpa using hf x hx)
      · simp [hf]
    · rw [resolveInMap]
      simp only [if_neg h]
      rw [findComment, findComment]
      rcases hf : cs.find? (fun c => c.id == commentId) with _ | c
      · simp only [hf]
        exact ih
      · exact absurd (List.any_eq_true.mpr
          ⟨c, List.mem_of_find?_eq_some hf, List.find?_some hf⟩) h

/-- C2: when the looked-up comment has a suggestion, an editor is active and
the anchor line is in range, a successful edit replaces the full text of the
anchor line with the suggested text, marks the comment resolved and reports
success; a failed edit reports the failure and leaves the state, hence the
resolved flag, unchanged. -/
theorem claim_C2 (st : CtrlState) (commentId : String) (c : ReviewComment)
    (sug : ReviewCommentSuggestion) (lines : List String)
    (h1 : findComment st.comments commentId = some c)
    (h2 : c.suggestion = some sug)
    (h3 : st.activeDoc = some lines)
    (h4 : 0 ≤ c.lineNumber - 1) (h5 : c.lineNumber - 1 < (lines.length : Int)) :
    ((applySuggestion st commentId true).1.activeDoc =
        some (lines.set (c.lineNumber - 1).toNat sug.suggested) ∧
      findComment (applySuggestion st commentId true).1.comments commentId =
        some c.setResolvedTrue ∧
      c.setResolvedTrue.resolved = true ∧
      (applySuggestion st commentId true).2 =
        .completed [UserMsg.info "✅ Suggestion applied successfully!"]) ∧
    (applySuggestion st commentId false =
      (st, .completed [UserMsg.error "❌ Failed to apply suggestion"]) ∧
     findComment (applySuggestion st commentId false).1.comments commentId = some c) := by
  have happ : ∀ editSuccess, applySuggestion st commentId editSuccess =
      if editSuccess then
        let doc := lines.set (c.lineNumber - 1).toNat sug.suggested
        let r := resolveComment { st with activeDoc := some doc } commentId
        match r.2 with
        | .completed msgs =>
          (r.1, .completed (msgs ++ [.info "✅ Suggestion applied successfully!"]))
        | .threw e => (r.1, .threw e)
      else (st, .completed [.error "❌ Failed to apply suggestion"]) := by
    intro editSuccess
    rw [applySuggestion, h1]
    simp only [h2, h3]
    rw [if_pos ⟨h4, h5⟩]
  have hres : resolveComment
      { st with activeDoc := some (lines.set (c.lineNumber - 1).toNat sug.suggested) }
      commentId =
      ({ comments := resolveInMap st.comments commentId,
         commentThreads := st.commentThreads.filter (fun i => i != commentId),
         activeDoc := some (lines.set (c.lineNumber - 1).toNat sug.suggested) },
       .completed []) := by
    rw [resolveComment]
    simp only [h1]
  refine ⟨?_, ?_⟩
  · rw [happ true]
    rw [if_pos (rfl : (true : Bool) = true)]
    simp only [hres]
    refine ⟨trivial, ?_, setResolvedTrue_resolved c, rfl⟩
    rw [findComment_resolveInMap, h1]
    rfl
  · rw [happ false]
    rw [if_neg Bool.false_ne_true]
    exact ⟨rfl, h1⟩

/-- Suggestion comment anchored at line 10 proposing to turn foo into bar. -/
def fixSugg : ReviewComment :=
  .mk "s1" "f" "me" "" .suggestion 10 (.date 0) false
    (some { original := "foo", suggested := "bar" }) [] none

/-- Ten-line active document whose line 10 reads foo. -/
def fixDoc : List String :=
  ["l1", "l2", "l3", "l4", "l5", "l6", "l7", "l8", "l9", "foo"]

/-- C2 witness: the spec scenario, a suggestion on line 10 of a document
whose line 10 is foo; a successful edit rewrites that line to bar and
resolves the comment, a failed edit only reports. -/
theorem claim_C2_witness :
    (applySuggestion ⟨[("f", [fixSugg])], ["s1"], some fixDoc⟩ "s1" true).1.activeDoc =
      some (fixDoc.set (fixSugg.lineNumber - 1).toNat "bar") ∧
    findComment (applySuggestion ⟨[("f", [fixSugg])], ["s1"], some fixDoc⟩ "s1" true).1.comments
      "s1" = some fixSugg.setResolvedTrue ∧
    applySuggestion ⟨[("f", [fixSugg])], ["s1"], some fixDoc⟩ "s1" false =
      (⟨[("f", [fixSugg])], ["s1"], some fixDoc⟩,
        .completed [UserMsg.error "❌ Failed to apply suggestion"]) := by
  have h := claim_C2 ⟨[("f", [fixSugg])], ["s1"], some fixDoc⟩ "s1" fixSugg
    { original := "foo", suggested := "bar" } fixDoc rfl rfl rfl (by decide) (by decide)
  exact ⟨h.1.1, h.1.2.1, h.2.1⟩

/-!
Claim C8: the resolved flag is monotonic and comments are never deleted.
An already-resolved comment is preserved identically by every operation:
setResolvedTrue fixes it, and no operation removes list elements.
-/

theorem mem_setResolvedFirst_of_resolved (commentId : String) (cs : List ReviewComment)
    (c : ReviewComment) (hc : c ∈ cs) (hres : c.resolved = true) :
    c ∈ setResolvedFirst commentId cs := by
  induction cs with
  | nil => cases hc
  | cons d rest ih =>
    rw [setResolvedFirst]
    by_cases h : d.id == commentId
    · simp only [if_pos h]
      rcases List.mem_cons.mp hc with rfl | hm
      · rw [setResolvedTrue_eq_self c hres]
        exact List.mem_cons_self c rest
      · exact List.mem_cons_of_mem _ hm
    · simp only [if_neg h]
      rcases List.mem_cons.mp hc with rfl | hm
      · exact List.mem_cons_self c _
      · exact List.mem_cons_of_mem _ (ih hm)

theorem mem_allComments_cons (p : String) (cs : List ReviewComment) (m : CommentMap)
    (c : ReviewComment) :
    c ∈ allComments ((p, cs) :: m) ↔ c ∈ cs ∨ c ∈ allComments m := by
  simp [allComments]

theorem mem_allComments_resolveInMap (m : CommentMap) (commentId : String)
    (c : ReviewComment) (hc : c ∈ allComments m) (hres : c.resolved = true) :
    c ∈ allComments (resolveInMap m commentId) := by
  induction m with
  | nil => cases hc
  | cons pc rest ih =>
    obtain ⟨p, cs⟩ := pc
    rw [resolveInMap]
    by_cases h : cs.any (fun x => x.id == commentId)
    · simp only [if_pos h]
      rcases (mem_allComments_cons p cs rest c).mp hc with hm | hm
      · exact (mem_allComments_cons _ _ _ _).mpr
          (Or.inl (mem_setResolvedFirst_of_resolved commentId cs c hm hres))
      · exact (mem_allComments_cons _ _ _ _).mpr (Or.inr hm)
    · simp only [if_neg h]
      rcases (mem_allComments_cons p cs rest c).mp hc with hm | hm
      · exact (mem_allComments_cons _ _ _ _).mpr (Or.inl hm)
      · exact (mem_allComments_cons _ _ _ _).mpr (Or.inr (ih hm))

theorem mem_allComments_addCommentToStore (m : CommentMap) (p : String)
    (nc c : ReviewComment) (hc : c ∈ allComments m) :
    c ∈ allComments (addCommentToStore m p nc) := by
  induction m with
  | nil => cases hc
  | cons pc rest ih =>
    obtain ⟨q, cs⟩ := pc
    rw [addCommentToStore]
    by_cases h : q == p
    · simp only [if_pos h]
      rcases (mem_allComments_cons q cs rest c).mp hc with hm | hm
      · exact (mem_allComments_cons _ _ _ _).mpr (Or.inl (List.mem_append_left _ hm))
      · exact (mem_allComments_cons _ _ _ _).mpr (Or.inr hm)
    · simp only [if_neg h]
      rcases (mem_allComments_cons q cs rest c).mp hc with hm | hm
      · exact (mem_allComments_cons _ _ _ _).mpr (Or.inl hm)
      · exact (mem_allComments_cons _ _ _ _).mpr (Or.inr (ih hm))

/-- The comments map after resolveComment is the original or its
resolveInMap image. -/
theorem comments_resolveComment (st : CtrlState) (commentId : String) :
    (resolveComment st commentId).1.comments = st.comments ∨
    (resolveComment st commentId).1.comments = resolveInMap st.comments commentId := by
  rcases hf : findComment st.comments commentId with _ | d
  · left
    rw [resolveComment, hf]
  · right
    rw [resolveComment, hf]

/-- The comments map after applySuggestion is the original or its
resolveInMap image. -/
theorem comments_applySuggestion (st : CtrlState) (commentId : String) (editSuccess : Bool) :
    (applySuggestion st commentId editSuccess).1.comments = st.comments ∨
    (applySuggestion st commentId editSuccess).1.comments =
      resolveInMap st.comments commentId := by
  rcases hf : findComment st.comments commentId with _ | d
  · left
    rw [applySuggestion, hf]
  · rw [applySuggestion, hf]
    rcases hs : d.suggestion with _ | sg
    · left
      simp only [hs]
    · simp only [hs]
      rcases hd : st.activeDoc with _ | lines
      · left
        simp only [hd]
      · simp only [hd]
        by_cases hr : 0 ≤ d.lineNumber - 1 ∧ d.lineNumber - 1 < (lines.length : Int)
        · rw [if_pos hr]
          cases editSuccess
          · left
            rw [if_neg Bool.false_ne_true]
          · rw [if_pos (rfl : (true : Bool) = true)]
            have hst : ∀ st' : CtrlState, st'.comments = st.comments →
                ((match (resolveComment st' commentId).2 with
                  | OpResult.completed msgs =>
                    ((resolveComment st' commentId).1,
                      OpResult.completed (msgs ++ [UserMsg.info "✅ Suggestion applied successfully!"]))
                  | OpResult.threw e =>
                    ((resolveComment st' commentId).1, OpResult.threw e)).1.comments =
                    st.comments ∨
                 (match (resolveComment st' commentId).2 with
                  | OpResult.completed msgs =>
                    ((resolveComment st' commentId).1,
                      OpResult.completed (msgs ++ [UserMsg.info "✅ Suggestion applied successfully!"]))
                  | OpResult.threw e =>
                    ((resolveComment st' commentId).1, OpResult.threw e)).1.comments =
                    resolveInMap st.comments commentId) := by
              intro st' heq
              have h1 := comments_resolveComment st' commentId
              rw [heq] at h1
              rcases hrr : (resolveComment st' commentId).2 with msgs | e
              · simpa using h1
              · simpa using h1
            exact hst _ rfl
        · rw [if_neg hr]
          left
          rfl

theorem stepOp_preserves_resolved (st : CtrlState) (op : EngineOp) (c : ReviewComment)
    (hc : c ∈ allComments st.comments) (hres : c.resolved = true) :
    c ∈ allComments ((stepOp st op).comments) := by
  cases op with
  | resolve commentId =>
    rcases comments_resolveComment st commentId with h | h
    · simpa [stepOp, h] using hc
    · rw [stepOp, h]
      exact mem_allComments_resolveInMap _ _ _ hc hres
  | applySugg commentId editSuccess =>
    rcases comments_applySuggestion st commentId editSuccess with h | h
    · simpa [stepOp, h] using hc
    · rw [stepOp, h]
      exact mem_allComments_resolveInMap _ _ _ hc hres
  | rejectSugg commentId =>
    have hcomm : (rejectSuggestion st commentId).1 = (resolveComment st commentId).1 := by
      rw [rejectSuggestion]
      rcases hrr : (resolveComment st commentId).2 with msgs | e
      · rfl
      · rfl
    rw [stepOp, hcomm]
    rcases comments_resolveComment st commentId with h | h
    · simpa [h] using hc
    · rw [h]
      exact mem_allComments_resolveInMap _ _ _ hc hres
  | add path freshId user bodyText t line now =>
    exact mem_allComments_addCommentToStore _ _ _ _ hc
  | addSugg path freshId user reason line now o s =>
    exact mem_allComments_addCommentToStore _ _ _ _ hc
  | pushAll prNumber reviewEvent pushOk submitErr => exact hc
  | importRemote ghs => exact hc

/-- C8: the resolved flag is monotonic.  A comment that is resolved survives
any sequence of engine operations unchanged (in particular it is never
un-resolved and never deleted), and both rejecting and accepting a
suggestion resolve the target comment. -/
theorem claim_C8 :
    (∀ (st : CtrlState) (ops : List EngineOp) (c : ReviewComment),
      c ∈ allComments st.comments → c.resolved = true →
      c ∈ allComments ((ops.foldl stepOp st).comments)) ∧
    (∀ (st : CtrlState) (commentId : String) (c : ReviewComment),
      findComment st.comments commentId = some c →
      findComment (rejectSuggestion st commentId).1.comments commentId =
        some c.setResolvedTrue ∧ c.setResolvedTrue.resolved = true) ∧
    (∀ (st : CtrlState) (commentId : String) (c : ReviewComment)
       (sug : ReviewCommentSuggestion) (lines : List String),
      findComment st.comments commentId = some c → c.suggestion = some sug →
      st.activeDoc = some lines → 0 ≤ c.lineNumber - 1 →
      c.lineNumber - 1 < (lines.length : Int) →
      findComment (applySuggestion st commentId true).1.comments commentId =
        some c.setResolvedTrue) := by
  refine ⟨?_, ?_, ?_⟩
  · intro st ops c hc hres
    induction ops generalizing st with
    | nil => exact hc
    | cons op rest ih =>
      exact ih (stepOp st op) (stepOp_preserves_resolved st op c hc hres)
  · intro st commentId c hf
    have hcomm : (rejectSuggestion st commentId).1 = (resolveComment st commentId).1 := by
      rw [rejectSuggestion]
      rcases hrr : (resolveComment st commentId).2 with msgs | e
      · rfl
      · rfl
    have h1 : (resolveComment st commentId).1.comments = resolveInMap st.comments commentId := by
      rw [resolveComment, hf]
    rw [hcomm, h1, findComment_resolveInMap, hf]
    exact ⟨rfl, setResolvedTrue_resolved c⟩
  · intro st commentId c sug lines h1 h2 h3 h4 h5
    rw [applySuggestion, h1]
    simp only [h2, h3]
    rw [if_pos ⟨h4, h5⟩]
    rw [if_pos trivial]
    have hres : resolveComment
        { st with activeDoc := some (lines.set (c.lineNumber - 1).toNat sug.suggested) }
        commentId =
        ({ comments := resolveInMap st.comments commentId,
           commentThreads := st.commentThreads.filter (fun i => i != commentId),
           activeDoc := some (lines.set (c.lineNumber - 1).toNat sug.suggested) },
         .completed []) := by
      rw [resolveComment]
      simp only [h1]
    simp only [hres]
    rw [findComment_resolveInMap, h1]
    rfl

/-- C8 witness: the resolved comment c survives a reject, an add and a push;
rejecting resolves fixA; accepting the suggestion scenario resolves s1. -/
theorem claim_C8_witness :
    fixC ∈ allComments
      (([EngineOp.rejectSugg "a", EngineOp.add "g" "n" "me" "b" .general 1 0,
         EngineOp.pushAll none none (fun _ => true) none].foldl stepOp
        ⟨[("f", [fixC])], [], none⟩).comments) ∧
    findComment (rejectSuggestion ⟨[("f", [fixA])], [], none⟩ "a").1.comments "a" =
      some fixA.setResolvedTrue ∧
    findComment (applySuggestion ⟨[("f", [fixSugg])], ["s1"], some fixDoc⟩ "s1" true).1.comments
      "s1" = some fixSugg.setResolvedTrue := by
  refine ⟨claim_C8.1 ⟨[("f", [fixC])], [], none⟩ _ fixC (by simp [allComments]) rfl,
    (claim_C8.2.1 ⟨[("f", [fixA])], [], none⟩ "a" fixA rfl).1,
    claim_C8.2.2 ⟨[("f", [fixSugg])], ["s1"], some fixDoc⟩ "s1" fixSugg
      { original := "foo", suggested := "bar" } fixDoc rfl rfl rfl (by decide) (by decide)⟩

/-!
Claim C3: save followed by load is the identity on well-formed mappings.
-/

theorem serializeComment_mk (i f a b : String) (t : CommentType) (n : Int) (ca : JsDate)
    (r : Bool) (s : Option ReviewCommentSuggestion) (replies : List ReviewComment)
    (p : Option Int) :
    serializeComment (.mk i f a b t n ca r s replies p) =
      .mk i f a b t n ca.toJsonVal r s (replies.map serializeComment) p := by
  unfold serializeComment
  simp [List.attach, List.attachWith, List.map_pmap]

/-- Reviving the dates of a serialized well-formed comment restores it: the
top-level date and the dates of the (unnested) replies come back as Date
objects. -/
theorem loadConvert_serialize (c : ReviewComment) (h : WellFormedMem c) :
    loadConvertComment (serializeComment c) = c := by
  obtain ⟨i, f, a, b, t, n, ca, r, s, replies, p⟩ := c
  obtain ⟨hca, hrep⟩ := h
  simp only [ReviewComment.createdAt_mk] at hca
  simp only [ReviewComment.replies_mk] at hrep
  rw [serializeComment_mk, loadConvertComment]
  have hmap : (replies.map serializeComment).map loadConvertReply = replies := by
    rw [List.map_map]
    have hid : ∀ x ∈ replies, (loadConvertReply ∘ serializeComment) x = x := by
      intro x hx
      obtain ⟨hxd, hxr⟩ := hrep x hx
      obtain ⟨xi, xf, xa, xb, xt, xn, xca, xr, xs, xreplies, xp⟩ := x
      simp only [ReviewComment.createdAt_mk] at hxd
      simp only [ReviewComment.replies_mk] at hxr
      subst hxr
      cases xca with
      | date ms =>
        simp [serializeComment_mk, loadConvertReply, JsDate.toJsonVal, JsDate.newDate]
      | isoString ms => simp [JsDate.isDateObj] at hxd
    calc replies.map (loadConvertReply ∘ serializeComment)
        = replies.map id := List.map_congr_left hid
      _ = replies := List.map_id replies
  cases ca with
  | date ms => simp [JsDate.toJsonVal, JsDate.newDate, hmap]
  | isoString ms => simp [JsDate.isDateObj] at hca

/-- C3: saving a non-empty well-formed mapping (a JS Map, hence unique keys;
every comment a Date-carrying in-memory value with unnested replies) and
loading it back restores the mapping exactly; the live thread handles live
outside the persisted value and are untouched. -/
theorem claim_C3 (st : SysState) (m : CommentMap)
    (hroot : st.workspaceRoot ≠ "")
    (hne : m ≠ [])
    (hkeys : (m.map Prod.fst).Nodup)
    (hwf : ∀ pc ∈ m, ∀ c ∈ pc.2, WellFormedMem c) :
    loadComments (saveComments st m none).1 = m := by
  have hb : (st.workspaceRoot == "") = false := by simpa using hroot
  rw [saveComments]
  rw [if_neg (by simp [hb])]
  rw [loadComments]
  rw [if_neg (by simp [hb])]
  show (serializeStore m).map (fun pc => (pc.1, pc.2.map loadConvertComment)) = m
  rw [serializeStore, List.map_map]
  have hid : ∀ pc ∈ m,
      ((fun pc => (pc.1, pc.2.map loadConvertComment)) ∘
        (fun pc => (pc.1, pc.2.map serializeComment))) pc = pc := by
    intro pc hpc
    obtain ⟨p, cs⟩ := pc
    have : (cs.map serializeComment).map loadConvertComment = cs := by
      rw [List.map_map]
      calc cs.map (loadConvertComment ∘ serializeComment)
          = cs.map id := List.map_congr_left
            (fun c hc => loadConvert_serialize c (hwf (p, cs) hpc c hc))
        _ = cs := List.map_id cs
    simpa using this
  calc m.map ((fun pc => (pc.1, pc.2.map loadConvertComment)) ∘
        (fun pc => (pc.1, pc.2.map serializeComment)))
      = m.map id := List.map_congr_left hid
    _ = m := List.map_id m

/-- In-memory comment with one reply, a suggestion and a remote id. -/
def fixReply : ReviewComment :=
  .mk "r1" "f" "me" "reply" .general 2 (.date 5) false none [] none

/-- Top-level comment carrying fixReply. -/
def fixParent : ReviewComment :=
  .mk "w1" "f" "me" "parent" .suggestion 3 (.date 4) false
    (some { original := "o", suggested := "s" }) [fixReply] (some 3)

/-- C3 witness: a singleton mapping with a reply-carrying comment survives
the save and load round trip. -/
theorem claim_C3_witness :
    loadComments (saveComments ⟨"root", .absent⟩ [("f", [fixParent])] none).1 =
      [("f", [fixParent])] := by
  refine claim_C3 ⟨"root", .absent⟩ [("f", [fixParent])] (by decide) (by simp) (by simp) ?_
  intro pc hpc c hc
  simp only [List.mem_singleton] at hpc
  subst hpc
  simp only [List.mem_singleton] at hc
  subst hc
  refine ⟨rfl, ?_⟩
  intro r hr
  have : r = fixReply := by simpa [fixParent] using hr
  subst this
  exact ⟨rfl, rfl⟩

/-!
Claim C10: frame property of saveFileComments, and the data loss when the
preceding load fell back to the empty map.
-/

/-- Serializing a comment whose dates are all ISO text changes nothing. -/
theorem serializeComment_eq_self_of_AllIso (c : ReviewComment) (h : AllIso c) :
    serializeComment c = c := by
  induction h with
  | mk i f a b t n ms r s replies p hrep ih =>
    rw [serializeComment_mk]
    have : replies.map serializeComment = replies :=
      calc replies.map serializeComment = replies.map id := List.map_congr_left ih
        _ = replies := List.map_id replies
    simp [JsDate.toJsonVal, this]

/-- Serializing the load conversion of an all-ISO comment restores the
stored form exactly. -/
theorem serialize_loadConvertReply (c : ReviewComment) (h : AllIso c) :
    serializeComment (loadConvertReply c) = c := by
  cases h with
  | mk i f a b t n ms r s replies p hrep =>
    rw [loadConvertReply, serializeComment_mk]
    have : replies.map serializeComment = replies :=
      calc replies.map serializeComment = replies.map id :=
          List.map_congr_left (fun x hx => serializeComment_eq_self_of_AllIso x (hrep x hx))
        _ = replies := List.map_id replies
    simp [JsDate.newDate, JsDate.toJsonVal, this]

theorem serialize_loadConvert (c : ReviewComment) (h : AllIso c) :
    serializeComment (loadConvertComment c) = c := by
  cases h with
  | mk i f a b t n ms r s replies p hrep =>
    rw [loadConvertComment, serializeComment_mk]
    have : (replies.map loadConvertReply).map serializeComment = replies := by
      rw [List.map_map]
      calc replies.map (serializeComment ∘ loadConvertReply)
          = replies.map id := List.map_congr_left
            (fun x hx => serialize_loadConvertReply x (hrep x hx))
        _ = replies := List.map_id replies
    simp [JsDate.newDate, JsDate.toJsonVal, this]

/-- Map.set leaves the lookup of every other key unchanged. -/
theorem lookupEntry_setEntry_ne (m : CommentMap) (p q : String)
    (cs : List ReviewComment) (h : q ≠ p) :
    lookupEntry (setEntry m p cs) q = lookupEntry m q := by
  induction m with
  | nil =>
    rw [setEntry]
    simp [lookupEntry, List.find?, show (p == q) = false by simpa using fun e => h e.symm]
  | cons pc rest ih =>
    obtain ⟨k, ds⟩ := pc
    rw [setEntry]
    by_cases hk : k == p
    · simp only [if_pos hk]
      have hkq : (p == q) = false := by simpa using fun e => h e.symm
      have hkq2 : (k == q) = false := by
        have : k = p := by simpa using hk
        simpa [this] using fun e => h e.symm
      rw [lookupEntry, lookupEntry, List.find?, List.find?]
      simp only [hkq, hkq2]
    · simp only [if_neg hk]
      rw [lookupEntry, lookupEntry, List.find?, List.find?]
      by_cases hkq : k == q
      · simp only [hkq]
      · simp only [hkq]
        exact ih

/-- C10: saveFileComments is a read-modify-write of the whole store.  When
the backing document is present and well formed, every other file keeps its
stored comment list byte for byte; when the backing document is absent or
unparsable, the load inside falls back to the empty map, so the rewritten
document holds only the file being saved and the comments of every other
file are lost. -/
theorem claim_C10 (st : SysState) (p : String) (cs : List ReviewComment) :
    (∀ (s : CommentStorage) (q : String),
      st.workspaceRoot ≠ "" → st.file = .content s →
      (∀ pc ∈ s.comments, ∀ c ∈ pc.2, AllIso c) → q ≠ p →
      ∃ s', (saveFileComments st p cs none).1.file = .content s' ∧
        lookupEntry s'.comments q = lookupEntry s.comments q) ∧
    (st.workspaceRoot ≠ "" → (st.file = .absent ∨ st.file = .corrupt) →
      (saveFileComments st p cs none).1.file =
        .content { version := "1.0", comments := [(p, cs.map serializeComment)] }) := by
  constructor
  · intro s q hroot hfile hiso hq
    have hb : (st.workspaceRoot == "") = false := by simpa using hroot
    have hload : loadComments st =
        s.comments.map (fun pc => (pc.1, pc.2.map loadConvertComment)) := by
      rw [loadComments, if_neg (by simp [hb]), hfile]
    refine ⟨{ version := "1.0",
              comments := serializeStore (setEntry (loadComments st) p cs) }, ?_, ?_⟩
    · rw [saveFileComments, saveComments, if_neg (by simp [hb])]
    · rw [serializeStore, lookupEntry_map_values, lookupEntry_setEntry_ne _ _ _ _ hq, hload,
        lookupEntry_map_values]
      rcases hl : lookupEntry s.comments q with _ | l
      · rfl
      · simp only [Option.map_map, Option.map]
        have hmem : (q, l) ∈ s.comments ∨ ∃ pc ∈ s.comments, pc.1 = q ∧ pc.2 = l := by
          right
          rcases hfind : s.comments.find? (fun pc => pc.1 == q) with _ | pc
          · rw [lookupEntry, hfind] at hl
            cases hl
          · rw [lookupEntry, hfind] at hl
            refine ⟨pc, List.mem_of_find?_eq_some hfind, ?_, by simpa using hl⟩
            simpa using List.find?_some hfind
        rcases hmem with hmem | ⟨pc, hpc, hq1, hq2⟩
        · have : (l.map loadConvertComment).map serializeComment = l := by
            rw [List.map_map]
            calc l.map (serializeComment ∘ loadConvertComment)
                = l.map id := List.map_congr_left
                  (fun c hc => serialize_loadConvert c (hiso (q, l) hmem c hc))
              _ = l := List.map_id l
          simp [this]
        · subst hq1
          subst hq2
          have : (pc.2.map loadConvertComment).map serializeComment = pc.2 := by
            rw [List.map_map]
            calc pc.2.map (serializeComment ∘ loadConvertComment)
                = pc.2.map id := List.map_congr_left
                  (fun c hc => serialize_loadConvert c (hiso pc hpc c hc))
              _ = pc.2 := List.map_id pc.2
          simp [this]
  · intro hroot hfile
    have hb : (st.workspaceRoot == "") = false := by simpa using hroot
    have hload : loadComments st = [] := by
      rw [loadComments, if_neg (by simp [hb])]
      rcases hfile with h | h
      · rw [h]
      · rw [h]
    rw [saveFileComments, hload, saveComments, if_neg (by simp [hb])]
    rfl

/-- Stored (all-ISO) comment as produced by JSON.parse of the persisted
document. -/
def fixStored : ReviewComment :=
  .mk "s" "g" "me" "b" .general 1 (.isoString 9) false none [] none

/-- C10 witness: rewriting file g of a two-file store leaves the stored list
of file h unchanged; with an absent backing file the rewritten document
holds only file g. -/
theorem claim_C10_witness :
    (∃ s', (saveFileComments
        ⟨"root", .content ⟨"1.0", [("g", [fixStored]), ("h", [fixStored])]⟩⟩
        "g" [] none).1.file = .content s' ∧
      lookupEntry s'.comments "h" =
        lookupEntry [("g", [fixStored]), ("h", [fixStored])] "h") ∧
    (saveFileComments ⟨"root", .absent⟩ "g" [] none).1.file =
      .content { version := "1.0",
                 comments := [("g", ([] : List ReviewComment).map serializeComment)] } := by
  have hiso : AllIso fixStored :=
    AllIso.mk "s" "g" "me" "b" .general 1 9 false none [] none
      (fun c hc => absurd hc (List.not_mem_nil c))
  refine ⟨(claim_C10 _ "g" []).1 ⟨"1.0", [("g", [fixStored]), ("h", [fixStored])]⟩ "h"
      (by decide) rfl ?_ (by decide),
    (claim_C10 ⟨"root", .absent⟩ "g" []).2 (by decide) (Or.inl rfl)⟩
  intro pc hpc c hc
  rcases List.mem_cons.mp hpc with rfl | hpc2
  · have : c = fixStored := by simpa using hc
    subst this
    exact hiso
  · rcases List.mem_cons.mp hpc2 with rfl | hpc3
    · have : c = fixStored := by simpa using hc
      subst this
      exact hiso
    · cases hpc3

/-!
Claim C4: the shape of convertToReviewComment.  The lemmas below pin down
listFind: it succeeds exactly on substrings, it returns the leftmost
occurrence, and when no occurrence of the pattern starts before a planted
one, the scan lands exactly on the planted occurrence.
-/

/-- Boolean test List.isPrefixOf agrees with the sublist relation. -/
theorem isPrefixOf_iff {p l : List Char} : p.isPrefixOf l = true ↔ p <+: l :=
  List.isPrefixOf_iff_prefix

/-- When the pattern has no occurrence starting inside the prefix pre, the
scan returns the occurrence planted right after pre.  This is the exact
leftmost-match condition: any actual match of the engine satisfies it. -/
theorem listFind_at (p0 : Char) (pt pre r : List Char)
    (h : ∀ i, i < pre.length →
      (p0 :: pt).isPrefixOf ((pre ++ ((p0 :: pt) ++ r)).drop i) = false) :
    listFind (p0 :: pt) (pre ++ ((p0 :: pt) ++ r)) = some (pre, r) := by
  induction pre with
  | nil =>
    rw [List.nil_append, show (p0 :: pt) ++ r = p0 :: (pt ++ r) from rfl, listFind]
    have hpre : (p0 :: pt).isPrefixOf (p0 :: (pt ++ r)) = true :=
      isPrefixOf_iff.mpr (List.prefix_append (p0 :: pt) r)
    rw [if_pos hpre]
    rw [show p0 :: (pt ++ r) = (p0 :: pt) ++ r from rfl, List.drop_left]
  | cons a pre' ih =>
    have h0 : (p0 :: pt).isPrefixOf (a :: (pre' ++ ((p0 :: pt) ++ r))) = false := by
      have := h 0 (by simp)
      rwa [List.drop_zero] at this
    have harg : ∀ i, i < pre'.length →
        (p0 :: pt).isPrefixOf ((pre' ++ ((p0 :: pt) ++ r)).drop i) = false := by
      intro i hi
      have := h (i + 1) (by simp only [List.length_cons]; omega)
      rwa [show (a :: pre') ++ ((p0 :: pt) ++ r) = a :: (pre' ++ ((p0 :: pt) ++ r)) from rfl,
        List.drop_succ_cons] at this
    rw [show (a :: pre') ++ ((p0 :: pt) ++ r) = a :: (pre' ++ ((p0 :: pt) ++ r)) from rfl,
      listFind]
    rw [if_neg (by rw [h0]; exact Bool.false_ne_true)]
    rw [ih harg]

theorem listFind_isSome_iff (pat s : List Char) :
    (listFind pat s).isSome ↔ ∃ x y, s = x ++ (pat ++ y) := by
  induction s with
  | nil =>
    rw [listFind]
    by_cases hp : pat = []
    · subst hp
      simp
    · rw [if_neg hp]
      refine iff_of_false (by simp) ?_
      rintro ⟨x, y, hxy⟩
      rcases List.append_eq_nil.mp hxy.symm with ⟨_, h2⟩
      rcases List.append_eq_nil.mp h2 with ⟨h3, _⟩
      exact hp h3
  | cons c rest ih =>
    rw [listFind]
    by_cases hp : pat.isPrefixOf (c :: rest)
    · rw [if_pos hp]
      refine iff_of_true (by simp) ?_
      obtain ⟨t, ht⟩ := isPrefixOf_iff.mp hp
      exact ⟨[], t, by rw [List.nil_append, ht]⟩
    · rw [if_neg hp]
      rcases hf : listFind pat rest with _ | ⟨b, a⟩
      · refine iff_of_false (by simp) ?_
        rintro ⟨x, y, hxy⟩
        cases x with
        | nil =>
          exact hp (isPrefixOf_iff.mpr ⟨y, by rw [List.nil_append] at hxy; exact hxy.symm⟩)
        | cons x0 x' =>
          rw [List.cons_append] at hxy
          have hrest : rest = x' ++ (pat ++ y) := (List.cons.injEq _ _ _ _).mp hxy |>.2
          have := ih.mpr ⟨x', y, hrest⟩
          rw [hf] at this
          cases this
      · refine iff_of_true (by simp) ?_
        have := ih.mp (by rw [hf]; rfl)
        obtain ⟨x, y, hxy⟩ := this
        exact ⟨c :: x, y, by rw [List.cons_append, hxy]⟩

theorem listFind_eq_some (pat s b a : List Char) (h : listFind pat s = some (b, a)) :
    s = b ++ (pat ++ a) ∧ ∀ b' a', s = b' ++ (pat ++ a') → b.length ≤ b'.length := by
  induction s generalizing b a with
  | nil =>
    rw [listFind] at h
    by_cases hp : pat = []
    · subst hp
      rw [if_pos rfl] at h
      simp only [Option.some.injEq, Prod.mk.injEq] at h
      obtain ⟨rfl, rfl⟩ := h
      exact ⟨rfl, fun b' a' _ => Nat.zero_le _⟩
    · rw [if_neg hp] at h
      cases h
  | cons c rest ih =>
    rw [listFind] at h
    by_cases hp : pat.isPrefixOf (c :: rest)
    · rw [if_pos hp] at h
      simp only [Option.some.injEq, Prod.mk.injEq] at h
      obtain ⟨rfl, rfl⟩ := h.symm
      obtain ⟨t, ht⟩ := isPrefixOf_iff.mp hp
      constructor
      · rw [List.nil_append, ← ht, List.drop_left]
      · exact fun b' a' _ => Nat.zero_le _
    · rw [if_neg hp] at h
      rcases hf : listFind pat rest with _ | ⟨b2, a2⟩
      · rw [hf] at h
        cases h
      · rw [hf] at h
        simp only [Option.some.injEq, Prod.mk.injEq] at h
        obtain ⟨rfl, rfl⟩ := h.symm
        obtain ⟨heq, hmin⟩ := ih b2 a2 hf
        refine ⟨by rw [List.cons_append, ← heq], ?_⟩
        intro b' a' hba
        cases b' with
        | nil =>
          rw [List.nil_append] at hba
          exact absurd (isPrefixOf_iff.mpr ⟨a', hba.symm⟩) hp
        | cons b0 b'' =>
          rw [List.cons_append] at hba
          have hrest : rest = b'' ++ (pat ++ a') := (List.cons.injEq _ _ _ _).mp hba |>.2
          have := hmin b'' a' hrest
          simp only [List.length_cons]
          omega

theorem matchLazy_isSome_iff (opn cls s : List Char) :
    (matchLazy opn cls s).isSome ↔ ∃ x y z, s = x ++ (opn ++ (y ++ (cls ++ z))) := by
  constructor
  · intro h
    rw [matchLazy] at h
    rcases h1 : listFind opn s with _ | ⟨b, rest⟩
    · simp only [h1, Option.isSome_none] at h
      cases h
    · simp only [h1] at h
      rcases h2 : listFind cls rest with _ | ⟨mid, aft⟩
      · simp only [h2, Option.isSome_none] at h
        cases h
      · obtain ⟨hs, _⟩ := listFind_eq_some opn s b rest h1
        obtain ⟨hr, _⟩ := listFind_eq_some cls rest mid aft h2
        exact ⟨b, mid, aft, by rw [hs, hr]⟩
  · rintro ⟨x, y, z, rfl⟩
    rw [matchLazy]
    rcases h1 : listFind opn (x ++ (opn ++ (y ++ (cls ++ z)))) with _ | ⟨b, rest⟩
    · have : (listFind opn (x ++ (opn ++ (y ++ (cls ++ z))))).isSome :=
        (listFind_isSome_iff _ _).mpr ⟨x, y ++ (cls ++ z), rfl⟩
      rw [h1] at this
      cases this
    · obtain ⟨heq, hmin⟩ := listFind_eq_some opn _ b rest h1
      have hb : b.length ≤ x.length := hmin x (y ++ (cls ++ z)) rfl
      have hsfx1 : cls ++ z <:+ x ++ (opn ++ (y ++ (cls ++ z))) :=
        ⟨x ++ opn ++ y, by simp [List.append_assoc]⟩
      have hsfx2 : rest <:+ x ++ (opn ++ (y ++ (cls ++ z))) := ⟨b ++ opn, by rw [heq]; simp [List.append_assoc]⟩
      have hlen : (cls ++ z).length ≤ rest.length := by
        have hl := congrArg List.length heq
        simp only [List.length_append] at hl ⊢
        omega
      obtain ⟨w, hw⟩ := List.suffix_of_suffix_length_le hsfx1 hsfx2 hlen
      have : (listFind cls rest).isSome :=
        (listFind_isSome_iff _ _).mpr ⟨w, z, hw.symm⟩
      rcases h2 : listFind cls rest with _ | ⟨mid, aft⟩
      · rw [h2] at this
        cases this
      · simp [h2]

/-- C4: the claim says the imported id is remote- followed by the remote id.
The code builds gh- followed by the remote id. -/
theorem claim_C4_cex :
    (convertToReviewComment ⟨5, "f", 1, "hello", "me", 0⟩).id = "gh-5" ∧
    "gh-5" ≠ "remote-5" := by
  exact ⟨by decide, by decide⟩

/-- C4 (amended): convertToReviewComment builds the local id as gh- followed
by the remote id (not remote-), records the remote id in prCommentId, and
marks the comment a suggestion exactly when the body contains a fenced
suggestion block.  In that case suggestion.suggested is the text between
the leftmost suggestion fence and the first subsequent closing fence
(original left empty, the body before the fence and the fenced text both
arbitrary); the local body is the remote body with the leftmost block and
one following blank line removed when the block is followed by a blank
line, and the unchanged remote body when the block-plus-blank-line pattern
occurs nowhere in it.  The two leftmost-occurrence hypotheses of the
extraction conjunct state exactly that the exhibited fences are the ones
the scan lands on; every match the engine produces satisfies them. -/
theorem claim_C4 (gh : GitHubPRComment) :
    (convertToReviewComment gh).id = "gh-" ++ toString gh.id ∧
    (convertToReviewComment gh).prCommentId = some gh.id ∧
    ((convertToReviewComment gh).type = CommentType.suggestion ↔
      ∃ x y z, gh.body.toList = x ++ (suggOpen ++ (y ++ (suggClose ++ z)))) ∧
    (∀ pre s rest : List Char,
      gh.body.toList = pre ++ (suggOpen ++ (s ++ (suggClose ++ rest))) →
      (∀ i, i < pre.length → suggOpen.isPrefixOf (gh.body.toList.drop i) = false) →
      (∀ i, i < s.length →
        suggClose.isPrefixOf ((s ++ (suggClose ++ rest)).drop i) = false) →
      (convertToReviewComment gh).suggestion =
        some { original := "", suggested := s.asString } ∧
      ∀ rest' : List Char, rest = "\n\n".toList ++ rest' →
        (convertToReviewComment gh).body = (pre ++ rest').asString) ∧
    ((convertToReviewComment gh).type = CommentType.suggestion →
      (¬ ∃ x y z, gh.body.toList = x ++ (suggOpen ++ (y ++ (suggCloseBlank ++ z)))) →
      (convertToReviewComment gh).body = gh.body) := by
  refine ⟨rfl, rfl, ?_, ?_, ?_⟩
  · have htype : (convertToReviewComment gh).type = CommentType.suggestion ↔
        (matchLazy suggOpen suggClose gh.body.toList).isSome := by
      have hacc : (convertToReviewComment gh).type =
          (match matchLazy suggOpen suggClose gh.body.toList with
           | some _ => CommentType.suggestion
           | none => CommentType.general) := rfl
      rw [hacc]
      rcases hm : matchLazy suggOpen suggClose gh.body.toList with _ | ⟨b, mid, aft⟩
      · simp
      · simp
    rw [htype, matchLazy_isSome_iff]
  · intro pre s rest hbody hopen hclose
    have eOpen : suggOpen = '\x60' :: "``suggestion\n".toList := by decide
    have eClose : suggClose = '\n' :: "```".toList := by decide
    have eCloseBlank : suggCloseBlank = '\n' :: "```\n\n".toList := by decide
    have eSplit : suggCloseBlank = suggClose ++ "\n\n".toList := by decide
    have h1 : listFind suggOpen gh.body.toList = some (pre, s ++ (suggClose ++ rest)) := by
      rw [hbody, eOpen]
      refine listFind_at '\x60' ("``suggestion\n".toList) pre (s ++ (suggClose ++ rest)) ?_
      intro i hi
      have := hopen i hi
      rwa [hbody, eOpen] at this
    have h2 : listFind suggClose (s ++ (suggClose ++ rest)) = some (s, rest) := by
      rw [eClose]
      refine listFind_at '\n' ("```".toList) s rest ?_
      intro i hi
      have := hclose i hi
      rwa [eClose] at this
    have hm : matchLazy suggOpen suggClose gh.body.toList = some (pre, s, rest) := by
      simp only [matchLazy, h1, h2]
    refine ⟨?_, ?_⟩
    · show (match matchLazy suggOpen suggClose gh.body.toList with
        | some (_, mid, _) =>
          some { original := "", suggested := mid.asString : ReviewCommentSuggestion }
        | none => none) = some { original := "", suggested := s.asString }
      rw [hm]
    · intro rest' hrest
      subst hrest
      have hEq : s ++ (suggClose ++ ("\n\n".toList ++ rest')) =
          s ++ (suggCloseBlank ++ rest') := by
        rw [eSplit, List.append_assoc]
      have h3 : listFind suggCloseBlank (s ++ (suggClose ++ ("\n\n".toList ++ rest'))) =
          some (s, rest') := by
        rw [hEq, eCloseBlank]
        refine listFind_at '\n' ("```\n\n".toList) s rest' ?_
        intro i hi
        rw [← eCloseBlank, ← hEq]
        apply Bool.eq_false_iff.mpr
        intro habs
        have hpfx := isPrefixOf_iff.mp habs
        have hsub : suggClose <+: suggCloseBlank := ⟨"\n\n".toList, eSplit.symm⟩
        have hcl := isPrefixOf_iff.mpr (hsub.trans hpfx)
        rw [hclose i hi] at hcl
        cases hcl
      have hmB : matchLazy suggOpen suggCloseBlank gh.body.toList =
          some (pre, s, rest') := by
        simp only [matchLazy, h1, h3]
      have hrep : replaceLazyOnce suggOpen suggCloseBlank gh.body.toList = pre ++ rest' := by
        simp only [replaceLazyOnce, hmB]
      show (match matchLazy suggOpen suggClose gh.body.toList with
        | some _ => (replaceLazyOnce suggOpen suggCloseBlank gh.body.toList).asString
        | none => gh.body) = (pre ++ rest').asString
      rw [hm, hrep]
  · intro htype hno
    have hβ : matchLazy suggOpen suggCloseBlank gh.body.toList = none := by
      rcases hmb : matchLazy suggOpen suggCloseBlank gh.body.toList with _ | ⟨b, mid, aft⟩
      · rfl
      · exfalso
        apply hno
        apply (matchLazy_isSome_iff suggOpen suggCloseBlank gh.body.toList).mp
        rw [hmb]
        rfl
    rcases hms : matchLazy suggOpen suggClose gh.body.toList with _ | ⟨b, mid, aft⟩
    · exfalso
      have hgen : (convertToReviewComment gh).type = CommentType.general := by
        show (match matchLazy suggOpen suggClose gh.body.toList with
          | some _ => CommentType.suggestion
          | none => CommentType.general) = CommentType.general
        rw [hms]
      rw [htype] at hgen
      exact absurd hgen (by decide)
    · show (match matchLazy suggOpen suggClose gh.body.toList with
        | some _ => (replaceLazyOnce suggOpen suggCloseBlank gh.body.toList).asString
        | none => gh.body) = gh.body
      rw [hms]
      simp only [replaceLazyOnce, hβ]
      rfl

/-- C4 witness: an ordinary remote suggestion comment, free text before the
fence and a multi-line fenced text, is imported with the fenced text as the
suggested side and the block plus blank line stripped from the body; a body
whose block has no following blank line keeps its full text. -/
theorem claim_C4_witness :
    (convertToReviewComment
        ⟨7, "f", 3, "See this:\n```suggestion\nfoo\nbar\n```\n\nthx", "me", 0⟩).id =
      "gh-" ++ toString (7 : Int) ∧
    (convertToReviewComment
        ⟨7, "f", 3, "See this:\n```suggestion\nfoo\nbar\n```\n\nthx", "me", 0⟩).suggestion =
      some { original := "", suggested := "foo\nbar".toList.asString } ∧
    (convertToReviewComment
        ⟨7, "f", 3, "See this:\n```suggestion\nfoo\nbar\n```\n\nthx", "me", 0⟩).body =
      ("See this:\n".toList ++ "thx".toList).asString ∧
    (convertToReviewComment ⟨8, "f", 1, "```suggestion\nbar\n```", "me", 0⟩).body =
      "```suggestion\nbar\n```" := by
  have h := claim_C4 ⟨7, "f", 3, "See this:\n```suggestion\nfoo\nbar\n```\n\nthx", "me", 0⟩
  have h4 := h.2.2.2.1 "See this:\n".toList "foo\nbar".toList "\n\nthx".toList
    (by decide) (by decide) (by decide)
  have hB := claim_C4 ⟨8, "f", 1, "```suggestion\nbar\n```", "me", 0⟩
  have hno : ¬ ∃ x y z, ("```suggestion\nbar\n```" : String).toList =
      x ++ (suggOpen ++ (y ++ (suggCloseBlank ++ z))) := by
    intro hex
    have hs := (matchLazy_isSome_iff suggOpen suggCloseBlank
      (("```suggestion\nbar\n```" : String).toList)).mpr hex
    rw [show matchLazy suggOpen suggCloseBlank
      (("```suggestion\nbar\n```" : String).toList) = none from rfl] at hs
    cases hs
  exact ⟨h.1, h4.1, h4.2 "thx".toList (by decide), hB.2.2.2.2 rfl hno⟩

end KubeLingo
